import Mathlib

/-!
Shallow embedding of the `mempool` fixed-size block allocator (`src/mempool.c`,
two-buffer variant) and verification of its specification claims.

Modelling conventions:
* Machine addresses and `size_t` / `uintptr_t` values are `Nat`; a null pointer
  is address `0` (for buffer and block arguments) or a `Bool` flag (for output
  parameters whose address is never used arithmetically).
* `uint32_t` fields hold values `< 2^32`; where the C code can wrap
  (`alloc_count++`, `free_count++`, `total - free`), the reduction mod `2^32`
  is written explicitly.
* The free list, threaded through block storage in C, is modelled as the
  abstract list of node addresses, head first (valid under the ownership rule
  that callers never write free blocks).
* The bitmap byte array is a `List Nat` of byte values.
* Synchronization callbacks are modelled by identity (`Option Nat`,
  `none` = null function pointer); each operation reports the list of callback
  identities it invokes, mirroring `mempool_internal_lock` / `_unlock`.
-/

/-- `mempool_error_t` from `mempool.h`. -/
inductive mempool_error_t where
  | MEMPOOL_OK
  | MEMPOOL_ERR_NULL_PTR
  | MEMPOOL_ERR_INVALID_SIZE
  | MEMPOOL_ERR_OUT_OF_MEMORY
  | MEMPOOL_ERR_INVALID_BLOCK
  | MEMPOOL_ERR_ALIGNMENT
  | MEMPOOL_ERR_DOUBLE_FREE
  | MEMPOOL_ERR_NOT_INITIALIZED
  deriving DecidableEq, Repr

export mempool_error_t (MEMPOOL_OK MEMPOOL_ERR_NULL_PTR MEMPOOL_ERR_INVALID_SIZE
  MEMPOOL_ERR_OUT_OF_MEMORY MEMPOOL_ERR_INVALID_BLOCK MEMPOOL_ERR_ALIGNMENT
  MEMPOOL_ERR_DOUBLE_FREE MEMPOOL_ERR_NOT_INITIALIZED)

/-- `mempool_stats_t`: all fields `uint32_t`. -/
structure mempool_stats_t where
  total_blocks : Nat
  used_blocks  : Nat
  free_blocks  : Nat
  peak_usage   : Nat
  alloc_count  : Nat
  free_count   : Nat
  block_size   : Nat
  deriving DecidableEq, Repr

/-- `mempool_sync_t`: lock/unlock callbacks (by identity, `none` = NULL) and
opaque user context (an address). -/
structure mempool_sync_t where
  lock     : Option Nat
  unlock   : Option Nat
  user_ctx : Nat
  deriving DecidableEq, Repr

/-- `struct mempool`: the control block living in the caller's state buffer. -/
structure Mempool where
  pool_buffer_start : Nat
  blocks_start      : Nat
  free_list         : List Nat
  bitmap            : List Nat
  bitmap_bytes      : Nat
  block_size        : Nat
  total_blocks      : Nat
  free_blocks       : Nat
  alignment         : Nat
  stats             : mempool_stats_t
  sync              : mempool_sync_t
  sync_enabled      : Bool
  initialized       : Bool
  deriving DecidableEq, Repr

/-- `UINT32_MAX`. -/
def UINT32_MAX : Nat := 4294967295

/-- `2^32`, the modulus of `uint32_t` arithmetic. -/
def U32_MOD : Nat := 4294967296

/-- `uint32_t` subtraction `a - b` (arguments already reduced mod `2^32`). -/
def u32_sub (a b : Nat) : Nat := (a + U32_MOD - b % U32_MOD) % U32_MOD

/-- `is_power_of_two` from the source: `value > 0 && (value & (value-1)) == 0`. -/
def is_power_of_two (value : Nat) : Bool :=
  0 < value && (value &&& (value - 1)) == 0

/-- `align_up(value, alignment) = (value + mask) & ~mask` with
`mask = alignment - 1`; for a power-of-two alignment, clearing the low bits of
`value + mask` is subtracting `(value + mask) & mask`. -/
def align_up (value alignment : Nat) : Nat :=
  let mask := alignment - 1
  (value + mask) - ((value + mask) &&& mask)

/-- The padding computed inside `mempool_init`'s layout loop: bytes needed to
bring `bitmap_end` up to the requested (power-of-two) alignment. -/
def code_pad (alignment bitmap_end : Nat) : Nat :=
  if 1 < alignment then
    let m := bitmap_end &&& (alignment - 1)
    if m ≠ 0 then alignment - m else 0
  else 0

/-- One candidate's space requirement in `mempool_init`'s layout loop:
`blocks_offset + n * aligned_block_size` with
`blocks_offset = bitmap_bytes + pad`. -/
def code_required (abs alignment n : Nat) : Nat :=
  let bb := (n + 7) / 8
  (bb + code_pad alignment bb) + n * abs

/-- The descending search loop of `mempool_init`: starting from `n` try each
candidate block count and return the first (largest) one whose layout fits,
together with its `bitmap_bytes` and `blocks_offset`. -/
def layout_search (pbs abs alignment : Nat) : Nat → Option (Nat × Nat × Nat)
  | 0 => none
  | n + 1 =>
    let bb := ((n + 1) + 7) / 8
    let off := bb + code_pad alignment bb
    if off + (n + 1) * abs ≤ pbs then some (n + 1, bb, off)
    else layout_search pbs abs alignment n

/-- The free-list building loop of `mempool_init` / `mempool_reset`: iterate
blocks in ascending index order pushing each onto a LIFO, so the resulting
list (head first) is `[base + (n-1)*size, ..., base + 0*size]`. -/
def build_free_list (base size : Nat) : Nat → List Nat
  | 0 => []
  | n + 1 => (base + n * size) :: build_free_list base size n

/-- Address of block `i` of a pool. -/
def addr_of (p : Mempool) (i : Nat) : Nat := p.blocks_start + i * p.block_size

/-- `mempool_block_index`: `(uint32_t)((ptr - blocks_start) / block_size)`. -/
def mempool_block_index (p : Mempool) (ptr : Nat) : Nat :=
  ((ptr - p.blocks_start) / p.block_size) % U32_MOD

/-- `mempool_internal_lock`: identities of callbacks invoked (empty or one). -/
def mempool_internal_lock (pool : Option Mempool) : List Nat :=
  match pool with
  | none => []
  | some p =>
    if p.sync_enabled then
      match p.sync.lock with
      | some f => [f]
      | none => []
    else []

/-- `mempool_internal_unlock`: identities of callbacks invoked. -/
def mempool_internal_unlock (pool : Option Mempool) : List Nat :=
  match pool with
  | none => []
  | some p =>
    if p.sync_enabled then
      match p.sync.unlock with
      | some f => [f]
      | none => []
    else []

/-- `mempool_init`. `sizeof_mempool` and `sizeof_free_node` are the
platform-dependent `sizeof(struct mempool)` and `sizeof(free_node_t)`.
Buffer pointers are addresses (0 = NULL); `pool_out_is_null` models a NULL
`pool_out`. Returns the freshly written control block on success. -/
def mempool_init (sizeof_mempool sizeof_free_node state_buffer state_buffer_size
    pool_buffer pool_buffer_size block_size alignment : Nat)
    (pool_out_is_null : Bool) : Except mempool_error_t Mempool :=
  if state_buffer = 0 ∨ pool_buffer = 0 ∨ pool_out_is_null = true then
    .error MEMPOOL_ERR_NULL_PTR
  else if state_buffer_size < sizeof_mempool then
    .error MEMPOOL_ERR_INVALID_SIZE
  else if pool_buffer_size = 0 ∨ block_size = 0 then
    .error MEMPOOL_ERR_INVALID_SIZE
  else if is_power_of_two alignment = false then
    .error MEMPOOL_ERR_ALIGNMENT
  else if pool_buffer &&& (alignment - 1) ≠ 0 then
    .error MEMPOOL_ERR_ALIGNMENT
  else if block_size < sizeof_free_node then
    .error MEMPOOL_ERR_INVALID_SIZE
  else
    let aligned_block_size := align_up block_size alignment
    let max_blocks := pool_buffer_size / aligned_block_size
    if max_blocks = 0 then
      .error MEMPOOL_ERR_INVALID_SIZE
    else
      match layout_search pool_buffer_size aligned_block_size alignment max_blocks with
      | none => .error MEMPOOL_ERR_INVALID_SIZE
      | some (n, bitmap_bytes, blocks_offset) =>
        if UINT32_MAX < n ∨ UINT32_MAX < bitmap_bytes then
          .error MEMPOOL_ERR_INVALID_SIZE
        else
          .ok {
            pool_buffer_start := pool_buffer
            blocks_start := pool_buffer + blocks_offset
            free_list := build_free_list (pool_buffer + blocks_offset) aligned_block_size n
            bitmap := List.replicate bitmap_bytes 0
            bitmap_bytes := bitmap_bytes
            block_size := aligned_block_size
            total_blocks := n
            free_blocks := n
            alignment := alignment
            stats := ⟨n, 0, n, 0, 0, 0, aligned_block_size⟩
            sync := ⟨none, none, 0⟩
            sync_enabled := false
            initialized := true }

/-- Result of `mempool_alloc`: error code, pool state after the call,
the value written to `*block` (`none` = `*block` untouched), and the
callback identities invoked. -/
structure alloc_result_t where
  error     : mempool_error_t
  pool      : Option Mempool
  block_out : Option Nat
  events    : List Nat
  deriving DecidableEq, Repr

/-- The successful branch of `mempool_alloc`: pop `node` (leaving `rest`),
decrement `free_blocks`, update stats and peak, and set the bitmap bit of the
popped block (the byte-index guard mirrors the source). -/
def alloc_commit (p : Mempool) (node : Nat) (rest : List Nat) : Mempool :=
  let fb := p.free_blocks - 1
  let ac := (p.stats.alloc_count + 1) % U32_MOD
  let ub := u32_sub p.total_blocks fb
  let pk := if p.stats.peak_usage < ub then ub else p.stats.peak_usage
  let index := mempool_block_index p node
  let byte_index := index / 8
  let mask := 1 <<< (index % 8)
  let bm :=
    if byte_index < p.bitmap_bytes then
      p.bitmap.set byte_index (p.bitmap.getD byte_index 0 ||| mask)
    else p.bitmap
  { p with
    free_list := rest
    free_blocks := fb
    bitmap := bm
    stats := { p.stats with
      alloc_count := ac, used_blocks := ub, free_blocks := fb, peak_usage := pk } }

/-- `mempool_alloc`. -/
def mempool_alloc (pool : Option Mempool) (block_is_null : Bool) : alloc_result_t :=
  match pool with
  | none => ⟨MEMPOOL_ERR_NULL_PTR, none, none, []⟩
  | some p =>
    if block_is_null = true then
      ⟨MEMPOOL_ERR_NULL_PTR, some p, none, []⟩
    else if p.initialized = false then
      ⟨MEMPOOL_ERR_NOT_INITIALIZED, some p, none, []⟩
    else
      let ev := mempool_internal_lock (some p)
      match p.free_list with
      | [] =>
        ⟨MEMPOOL_ERR_OUT_OF_MEMORY, some p, none, ev ++ mempool_internal_unlock (some p)⟩
      | node :: rest =>
        if p.free_blocks = 0 then
          ⟨MEMPOOL_ERR_OUT_OF_MEMORY, some p, none, ev ++ mempool_internal_unlock (some p)⟩
        else
          let p' := alloc_commit p node rest
          ⟨MEMPOOL_OK, some p', some node, ev ++ mempool_internal_unlock (some p')⟩

/-- Result of `mempool_free` / `mempool_reset`. -/
structure free_result_t where
  error  : mempool_error_t
  pool   : Option Mempool
  events : List Nat
  deriving DecidableEq, Repr

/-- The successful branch of `mempool_free`: push `block` back onto the free
list, bump `free_blocks` (saturating at `total_blocks`) and `free_count`,
recompute `used_blocks`, and clear the block's bitmap bit. -/
def free_commit (p : Mempool) (block byte_index byte mask : Nat) : Mempool :=
  let fb := if p.free_blocks < p.total_blocks then p.free_blocks + 1 else p.free_blocks
  let fc := (p.stats.free_count + 1) % U32_MOD
  let ub := u32_sub p.total_blocks fb
  { p with
    free_list := block :: p.free_list
    free_blocks := fb
    bitmap := p.bitmap.set byte_index (byte &&& (255 ^^^ mask))
    stats := { p.stats with
      free_count := fc, used_blocks := ub, free_blocks := fb } }

/-- `mempool_free`; `block` is the pointer's address (0 = NULL). -/
def mempool_free (pool : Option Mempool) (block : Nat) : free_result_t :=
  match pool with
  | none => ⟨MEMPOOL_ERR_NULL_PTR, none, []⟩
  | some p =>
    if block = 0 then
      ⟨MEMPOOL_ERR_NULL_PTR, some p, []⟩
    else if p.initialized = false then
      ⟨MEMPOOL_ERR_NOT_INITIALIZED, some p, []⟩
    else
      let blocks_start_addr := p.blocks_start
      let blocks_end_addr := blocks_start_addr + p.total_blocks * p.block_size
      if block < blocks_start_addr ∨ blocks_end_addr ≤ block then
        ⟨MEMPOOL_ERR_INVALID_BLOCK, some p, []⟩
      else
        let offset := block - blocks_start_addr
        if offset % p.block_size ≠ 0 then
          ⟨MEMPOOL_ERR_INVALID_BLOCK, some p, []⟩
        else
          let ev := mempool_internal_lock (some p)
          let index := mempool_block_index p block
          let byte_index := index / 8
          let mask := 1 <<< (index % 8)
          if p.bitmap_bytes ≤ byte_index then
            ⟨MEMPOOL_ERR_INVALID_BLOCK, some p, ev ++ mempool_internal_unlock (some p)⟩
          else
            let byte := p.bitmap.getD byte_index 0
            if byte &&& mask = 0 then
              ⟨MEMPOOL_ERR_DOUBLE_FREE, some p, ev ++ mempool_internal_unlock (some p)⟩
            else
              let p' := free_commit p block byte_index byte mask
              ⟨MEMPOOL_OK, some p', ev ++ mempool_internal_unlock (some p')⟩

/-- Result of `mempool_get_stats`: error, (unchanged) pool, value written to
`*stats` (`none` = untouched), invoked callbacks. -/
structure stats_result_t where
  error     : mempool_error_t
  pool      : Option Mempool
  stats_out : Option mempool_stats_t
  events    : List Nat
  deriving DecidableEq, Repr

/-- `mempool_get_stats`; the pool is only read. -/
def mempool_get_stats (pool : Option Mempool) (stats_is_null : Bool) : stats_result_t :=
  match pool with
  | none => ⟨MEMPOOL_ERR_NULL_PTR, none, none, []⟩
  | some p =>
    if stats_is_null = true then
      ⟨MEMPOOL_ERR_NULL_PTR, some p, none, []⟩
    else if p.initialized = false then
      ⟨MEMPOOL_ERR_NOT_INITIALIZED, some p, none, []⟩
    else
      ⟨MEMPOOL_OK, some p, some p.stats,
        mempool_internal_lock (some p) ++ mempool_internal_unlock (some p)⟩

/-- The body of `mempool_reset` on an initialized pool: zero the bitmap,
rebuild the free list in init's canonical order, and reset the statistics. -/
def reset_commit (p : Mempool) : Mempool :=
  { p with
    bitmap := List.replicate p.bitmap_bytes 0
    free_list := build_free_list p.blocks_start p.block_size p.total_blocks
    free_blocks := p.total_blocks
    stats := ⟨p.total_blocks, 0, p.total_blocks, 0, 0, 0, p.block_size⟩ }

/-- `mempool_reset`. -/
def mempool_reset (pool : Option Mempool) : free_result_t :=
  match pool with
  | none => ⟨MEMPOOL_ERR_NULL_PTR, none, []⟩
  | some p =>
    if p.initialized = false then
      ⟨MEMPOOL_ERR_NOT_INITIALIZED, some p, []⟩
    else
      let p' := reset_commit p
      ⟨MEMPOOL_OK, some p',
        mempool_internal_lock (some p) ++ mempool_internal_unlock (some p')⟩

/-- Result of `mempool_set_sync`. -/
structure sync_result_t where
  error : mempool_error_t
  pool  : Option Mempool
  deriving DecidableEq, Repr

/-- `mempool_set_sync`. -/
def mempool_set_sync (pool : Option Mempool) (lock unlock : Option Nat)
    (user_ctx : Nat) : sync_result_t :=
  match pool with
  | none => ⟨MEMPOOL_ERR_NULL_PTR, none⟩
  | some p =>
    if p.initialized = false then
      ⟨MEMPOOL_ERR_NOT_INITIALIZED, some p⟩
    else
      ⟨MEMPOOL_OK, some
        { p with
          sync := ⟨lock, unlock, user_ctx⟩
          sync_enabled := lock.isSome && unlock.isSome }⟩

/-- `mempool_contains`. -/
def mempool_contains (pool : Option Mempool) (ptr : Nat) : Bool :=
  match pool with
  | none => false
  | some p =>
    if ptr = 0 ∨ p.initialized = false then false
    else
      decide (p.blocks_start ≤ ptr ∧
        ptr < p.blocks_start + p.total_blocks * p.block_size)

/-- The bit of the allocation bitmap corresponding to block `i`
(little-endian bit numbering: bit `i % 8` of byte `i / 8`). -/
def bit_get (bm : List Nat) (i : Nat) : Bool :=
  Nat.testBit (bm.getD (i / 8) 0) (i % 8)

/-- The representation invariant of an initialized pool, established by
`mempool_init` and preserved by every operation. -/
structure PoolInv (p : Mempool) : Prop where
  init_flag  : p.initialized = true
  total_pos  : 1 ≤ p.total_blocks
  total_lt   : p.total_blocks < U32_MOD
  bs_pos     : 0 < p.block_size
  bb_eq      : p.bitmap_bytes = (p.total_blocks + 7) / 8
  bm_len     : p.bitmap.length = p.bitmap_bytes
  bm_bytes   : ∀ b ∈ p.bitmap, b < 256
  fb_len     : p.free_blocks = p.free_list.length
  fb_le      : p.free_blocks ≤ p.total_blocks
  fl_nodup   : p.free_list.Nodup
  fl_mem     : ∀ a ∈ p.free_list, ∃ i, i < p.total_blocks ∧ a = addr_of p i
  bit_iff    : ∀ i, i < p.total_blocks →
                 (bit_get p.bitmap i = true ↔ addr_of p i ∉ p.free_list)
  st_total   : p.stats.total_blocks = p.total_blocks
  st_free    : p.stats.free_blocks = p.free_blocks
  st_used    : p.stats.used_blocks = p.total_blocks - p.free_blocks
  st_peak    : p.stats.used_blocks ≤ p.stats.peak_usage
  st_peak_lt : p.stats.peak_usage < U32_MOD
  st_ac_lt   : p.stats.alloc_count < U32_MOD
  st_fc_lt   : p.stats.free_count < U32_MOD
  st_count   : (p.stats.alloc_count + U32_MOD - p.stats.free_count) % U32_MOD
                 = p.total_blocks - p.free_blocks
  st_bs      : p.stats.block_size = p.block_size

/-- Pool states reachable from a successful `mempool_init` through the public
operations (with arbitrary arguments). -/
inductive Reachable : Mempool → Prop where
  | init (szm szfn sb ssz pb pbs bs al : Nat) (p : Mempool) :
      mempool_init szm szfn sb ssz pb pbs bs al false = .ok p → Reachable p
  | alloc (p p' : Mempool) (b : Bool) : Reachable p →
      (mempool_alloc (some p) b).pool = some p' → Reachable p'
  | free (p p' : Mempool) (a : Nat) : Reachable p →
      (mempool_free (some p) a).pool = some p' → Reachable p'
  | reset (p p' : Mempool) : Reachable p →
      (mempool_reset (some p)).pool = some p' → Reachable p'
  | get_stats (p p' : Mempool) (s : Bool) : Reachable p →
      (mempool_get_stats (some p) s).pool = some p' → Reachable p'
  | set_sync (p p' : Mempool) (lk ulk : Option Nat) (ctx : Nat) : Reachable p →
      (mempool_set_sync (some p) lk ulk ctx).pool = some p' → Reachable p'

/-- One `mempool_alloc(pool, &block)` call viewed as a state transformer,
together with the block pointer written (if any). -/
def alloc_step (p : Mempool) : Mempool × Option Nat :=
  let r := mempool_alloc (some p) false
  (r.pool.getD p, r.block_out)

/-- `k` successive `mempool_alloc` calls: final pool state and the list of
block pointers returned, in order. -/
def alloc_run : Mempool → Nat → Mempool × List Nat
  | p, 0 => (p, [])
  | p, k + 1 =>
    let s := alloc_step p
    let r := alloc_run s.1 k
    (r.1, (match s.2 with | some a => [a] | none => []) ++ r.2)

/-- Spec-side formula: `aligned_block_size = ⌈block_size / alignment⌉ × alignment`. -/
def spec_aligned_block_size (block_size alignment : Nat) : Nat :=
  ((block_size + alignment - 1) / alignment) * alignment

/-- Spec-side formula: padding bringing `bitmap_end` up to a multiple of
`alignment`. -/
def spec_pad (bitmap_end alignment : Nat) : Nat :=
  (alignment - bitmap_end % alignment) % alignment

/-- Spec-side layout constraint of claim C3:
`⌈N/8⌉ + pad_to_alignment + N × aligned_block_size ≤ pool_region_size`. -/
def spec_fits (pool_region_size block_size alignment n : Nat) : Prop :=
  (n + 7) / 8 + spec_pad ((n + 7) / 8) alignment
    + n * spec_aligned_block_size block_size alignment ≤ pool_region_size

/-- An uninitialized control block (used as the match fallback of the concrete
example pools below; never reached). -/
def mempool_dummy : Mempool :=
  ⟨0, 0, [], [], 0, 0, 0, 0, 0, ⟨0, 0, 0, 0, 0, 0, 0⟩, ⟨none, none, 0⟩, false, false⟩

/-- A concrete 7-block pool: `mempool_init` on a 64-byte pool region at
address 1, block size 8, alignment 1. -/
def pool7 : Mempool :=
  match mempool_init 1 8 1 1 1 64 8 1 false with
  | .ok p => p
  | .error _ => mempool_dummy

/-- The pool state after one successful allocation from `pool7`. -/
def p7a : Mempool := (mempool_alloc (some pool7) false).pool.getD mempool_dummy

theorem getD_set_self (l : List Nat) (i a d : Nat) (h : i < l.length) :
    (l.set i a).getD i d = a := by
  simp [List.getD, List.getElem?_set_self, h]

theorem getD_set_ne (l : List Nat) {i j : Nat} (a d : Nat) (h : i ≠ j) :
    (l.set i a).getD j d = l.getD j d := by
  simp [List.getD, List.getElem?_set_ne h]

theorem getD_lt_of_forall (l : List Nat) (i d : Nat) (hd : d < 256)
    (h : ∀ b ∈ l, b < 256) : l.getD i d < 256 := by
  rcases Nat.lt_or_ge i l.length with hi | hi
  · refine h _ ?_
    rw [List.getD_eq_getElem l d hi]
    exact List.getElem_mem hi
  · rw [List.getD_eq_default l d hi]
    exact hd

theorem testBit_or_mask (b k m : Nat) :
    (b ||| 1 <<< k).testBit m = (b.testBit m || decide (k = m)) := by
  simp [Nat.testBit_or, Nat.shiftLeft_eq, Nat.testBit_two_pow]

theorem testBit_and_notmask (b k m : Nat) (hm : m < 8) :
    (b &&& (255 ^^^ 1 <<< k)).testBit m = (b.testBit m && !decide (k = m)) := by
  have hb255 : Nat.testBit 255 m = true := by
    rw [show (255 : Nat) = 2 ^ 8 - 1 from by norm_num, Nat.testBit_two_pow_sub_one]
    simpa using hm
  have hshift : (1 <<< k : Nat).testBit m = decide (k = m) := by
    simp [Nat.shiftLeft_eq, Nat.testBit_two_pow]
  rw [Nat.testBit_and, Nat.testBit_xor, hb255, hshift, Bool.true_xor]

theorem or_mask_lt (b k : Nat) (hb : b < 256) (hk : k < 8) : b ||| 1 <<< k < 256 := by
  have h1 : 1 <<< k < 256 := by
    rw [Nat.shiftLeft_eq, one_mul]
    calc 2 ^ k ≤ 2 ^ 7 := Nat.pow_le_pow_right (by norm_num) (by omega)
    _ < 256 := by norm_num
  have := Nat.or_lt_two_pow (n := 8) (by simpa using hb) (by simpa using h1)
  simpa using this

theorem bit_get_set_or (bm : List Nat) (i j : Nat) (hlen : i / 8 < bm.length) :
    bit_get (bm.set (i / 8) (bm.getD (i / 8) 0 ||| 1 <<< (i % 8))) j
      = (if j = i then true else bit_get bm j) := by
  unfold bit_get
  by_cases hb : j / 8 = i / 8
  · rw [hb, getD_set_self _ _ _ _ hlen, testBit_or_mask]
    by_cases hji : j = i
    · subst hji; simp
    · have hne : i % 8 ≠ j % 8 := by omega
      simp [hji, hne]
  · have hji : j ≠ i := fun h => hb (by rw [h])
    rw [getD_set_ne _ _ _ (fun h => hb h.symm)]
    simp [hji]

theorem bit_get_set_andnot (bm : List Nat) (i j : Nat) (hlen : i / 8 < bm.length) :
    bit_get (bm.set (i / 8) (bm.getD (i / 8) 0 &&& (255 ^^^ 1 <<< (i % 8)))) j
      = (if j = i then false else bit_get bm j) := by
  unfold bit_get
  by_cases hb : j / 8 = i / 8
  · rw [hb, getD_set_self _ _ _ _ hlen,
      testBit_and_notmask _ _ _ (Nat.mod_lt _ (by norm_num))]
    by_cases hji : j = i
    · subst hji; simp
    · have hne : i % 8 ≠ j % 8 := by omega
      simp [hji, hne]
  · have hji : j ≠ i := fun h => hb (by rw [h])
    rw [getD_set_ne _ _ _ (fun h => hb h.symm)]
    simp [hji]

theorem bit_get_replicate_zero (n j : Nat) :
    bit_get (List.replicate n 0) j = false := by
  unfold bit_get
  rcases Nat.lt_or_ge (j / 8) n with h | h
  · rw [List.getD_eq_getElem _ _ (by simpa using h)]
    simp
  · rw [List.getD_eq_default _ _ (by simpa using h)]
    simp

theorem build_free_list_length (base size n : Nat) :
    (build_free_list base size n).length = n := by
  induction n with
  | zero => rfl
  | succ k ih => simp [build_free_list, ih]

theorem mem_build_free_list {base size n a : Nat} :
    a ∈ build_free_list base size n ↔ ∃ i, i < n ∧ a = base + i * size := by
  induction n with
  | zero => simp [build_free_list]
  | succ k ih =>
    simp only [build_free_list, List.mem_cons, ih]
    constructor
    · rintro (rfl | ⟨i, hi, rfl⟩)
      · exact ⟨k, by omega, rfl⟩
      · exact ⟨i, by omega, rfl⟩
    · rintro ⟨i, hi, rfl⟩
      rcases Nat.lt_succ_iff_lt_or_eq.mp hi with h | rfl
      · exact Or.inr ⟨i, h, rfl⟩
      · exact Or.inl rfl

theorem build_free_list_nodup (base size n : Nat) (hs : 0 < size) :
    (build_free_list base size n).Nodup := by
  induction n with
  | zero => simp [build_free_list]
  | succ k ih =>
    refine List.nodup_cons.mpr ⟨?_, ih⟩
    rw [mem_build_free_list]
    rintro ⟨i, hi, heq⟩
    have h1 : k * size = i * size := by omega
    have h2 : k = i := Nat.eq_of_mul_eq_mul_right hs h1
    omega

theorem u32_sub_eq {a b : Nat} (hb : b ≤ a) (ha : a < U32_MOD) :
    u32_sub a b = a - b := by
  unfold u32_sub U32_MOD
  unfold U32_MOD at ha
  omega

theorem addr_of_inj (p : Mempool) (hbs : 0 < p.block_size) {i j : Nat}
    (h : addr_of p i = addr_of p j) : i = j := by
  unfold addr_of at h
  exact Nat.eq_of_mul_eq_mul_right hbs (Nat.add_left_cancel h)

theorem block_index_addr_of (p : Mempool) (hbs : 0 < p.block_size)
    {i : Nat} (hi : i < U32_MOD) :
    mempool_block_index p (addr_of p i) = i := by
  unfold mempool_block_index addr_of
  rw [Nat.add_sub_cancel_left, Nat.mul_div_cancel _ hbs]
  exact Nat.mod_eq_of_lt hi

theorem index_of_valid_ptr (p : Mempool) (hbs : 0 < p.block_size)
    {a : Nat} (h1 : p.blocks_start ≤ a)
    (h2 : a < p.blocks_start + p.total_blocks * p.block_size)
    (h3 : (a - p.blocks_start) % p.block_size = 0) :
    (a - p.blocks_start) / p.block_size < p.total_blocks ∧
      a = addr_of p ((a - p.blocks_start) / p.block_size) := by
  obtain ⟨q, hq⟩ := Nat.dvd_of_mod_eq_zero h3
  have hoff : a - p.blocks_start = q * p.block_size := by rw [hq, Nat.mul_comm]
  have hdiv : (a - p.blocks_start) / p.block_size = q := by
    rw [hoff, Nat.mul_div_cancel _ hbs]
  have hqlt : q < p.total_blocks := by
    have : q * p.block_size < p.total_blocks * p.block_size := by omega
    exact Nat.lt_of_mul_lt_mul_right this
  refine ⟨by rw [hdiv]; exact hqlt, ?_⟩
  unfold addr_of
  rw [hdiv]
  omega

theorem free_list_length_lt (p : Mempool) (hp : PoolInv p) {i : Nat}
    (hi : i < p.total_blocks) (hni : addr_of p i ∉ p.free_list) :
    p.free_list.length < p.total_blocks := by
  classical
  have hinj : Function.Injective (fun j => addr_of p j) :=
    fun x y h => addr_of_inj p hp.bs_pos h
  have hsub : p.free_list.toFinset ⊆
      (Finset.range p.total_blocks).image (fun j => addr_of p j) := by
    intro a ha
    rw [List.mem_toFinset] at ha
    obtain ⟨j, hj, rfl⟩ := hp.fl_mem a ha
    exact Finset.mem_image.mpr ⟨j, Finset.mem_range.mpr hj, rfl⟩
  have hss : p.free_list.toFinset ⊂
      (Finset.range p.total_blocks).image (fun j => addr_of p j) := by
    rw [Finset.ssubset_iff_of_subset hsub]
    exact ⟨addr_of p i, Finset.mem_image.mpr ⟨i, Finset.mem_range.mpr hi, rfl⟩,
      fun hmem => hni (List.mem_toFinset.mp hmem)⟩
  have hcard := Finset.card_lt_card hss
  rwa [List.toFinset_card_of_nodup hp.fl_nodup,
    Finset.card_image_of_injective _ hinj, Finset.card_range] at hcard

theorem and_mask_ne_zero_iff (b k : Nat) : b &&& 1 <<< k ≠ 0 ↔ b.testBit k = true := by
  rw [Nat.shiftLeft_eq, one_mul, Nat.and_two_pow]
  cases h : b.testBit k <;> simp [h]

theorem le_align_up (v al : Nat) : v ≤ align_up v al := by
  have h : align_up v al = (v + (al - 1)) - ((v + (al - 1)) &&& (al - 1)) := rfl
  have h2 : (v + (al - 1)) &&& (al - 1) ≤ al - 1 := Nat.and_le_right
  omega

theorem fresh_inv (p : Mempool)
    (hinit : p.initialized = true)
    (h1 : 1 ≤ p.total_blocks) (h2 : p.total_blocks < U32_MOD) (h3 : 0 < p.block_size)
    (h4 : p.bitmap_bytes = (p.total_blocks + 7) / 8)
    (h5 : p.bitmap = List.replicate p.bitmap_bytes 0)
    (h6 : p.free_list = build_free_list p.blocks_start p.block_size p.total_blocks)
    (h7 : p.free_blocks = p.total_blocks)
    (h8 : p.stats = ⟨p.total_blocks, 0, p.total_blocks, 0, 0, 0, p.block_size⟩) :
    PoolInv p := by
  refine ⟨hinit, h1, h2, h3, h4, ?_, ?_, ?_, ?_, ?_, ?_, ?_, ?_, ?_, ?_, ?_, ?_, ?_, ?_, ?_, ?_⟩
  · rw [h5]; simp
  · rw [h5]; intro b hb; have := List.eq_of_mem_replicate hb; omega
  · rw [h7, h6, build_free_list_length]
  · rw [h7]
  · rw [h6]; exact build_free_list_nodup _ _ _ h3
  · rw [h6]; intro a ha
    obtain ⟨i, hi, rfl⟩ := mem_build_free_list.mp ha
    exact ⟨i, hi, rfl⟩
  · intro i hi
    have hmem : addr_of p i ∈ build_free_list p.blocks_start p.block_size p.total_blocks :=
      mem_build_free_list.mpr ⟨i, hi, rfl⟩
    rw [h5, bit_get_replicate_zero, h6]
    simp [hmem]
  · rw [h8]
  · rw [h8, h7]
  · rw [h8]; simp [h7]
  · rw [h8]
  · rw [h8]; unfold U32_MOD; norm_num
  · rw [h8]; unfold U32_MOD; norm_num
  · rw [h8]; unfold U32_MOD; norm_num
  · rw [h8, h7]; unfold U32_MOD; simp
  · rw [h8]

theorem layout_search_some {pbs abs al fuel n bb off : Nat}
    (h : layout_search pbs abs al fuel = some (n, bb, off)) :
    1 ≤ n ∧ n ≤ fuel ∧ bb = (n + 7) / 8 ∧ off = bb + code_pad al bb ∧
      off + n * abs ≤ pbs := by
  induction fuel with
  | zero => simp [layout_search] at h
  | succ k ih =>
    rw [layout_search] at h
    by_cases hc : ((k + 1) + 7) / 8 + code_pad al (((k + 1) + 7) / 8) + (k + 1) * abs ≤ pbs
    · rw [if_pos hc] at h
      obtain ⟨rfl, rfl, rfl⟩ := by simpa using h
      exact ⟨by omega, le_refl _, rfl, rfl, hc⟩
    · rw [if_neg hc] at h
      obtain ⟨ha, hb', hc', hd, he⟩ := ih h
      exact ⟨ha, by omega, hc', hd, he⟩

theorem init_ok_inv {szm szfn sb ssz pb pbs bs al : Nat} {b : Bool} {p : Mempool}
    (h : mempool_init szm szfn sb ssz pb pbs bs al b = .ok p) : PoolInv p := by
  simp only [mempool_init] at h
  split at h; · exact absurd h (by simp)
  split at h; · exact absurd h (by simp)
  split at h; · exact absurd h (by simp)
  split at h; · exact absurd h (by simp)
  split at h; · exact absurd h (by simp)
  split at h; · exact absurd h (by simp)
  next hnull hssz hsz hpow hal hbs =>
  split at h; · exact absurd h (by simp)
  next hmax =>
  split at h
  · exact absurd h (by simp)
  next n bb off hsearch =>
  split at h; · exact absurd h (by simp)
  next hrange =>
  obtain rfl : _ = p := by simpa using h
  obtain ⟨hn1, hnle, hbb, hoff, hfit⟩ := layout_search_some hsearch
  have hbs0 : 0 < bs := by omega
  have habs : 0 < align_up bs al := lt_of_lt_of_le hbs0 (le_align_up bs al)
  refine fresh_inv _ rfl hn1 ?_ habs hbb rfl rfl rfl rfl
  show n < U32_MOD
  unfold U32_MOD
  unfold UINT32_MAX at hrange
  omega

theorem alloc_eq_success (p : Mempool) {node : Nat} {rest : List Nat}
    (hinit : p.initialized = true) (hfl : p.free_list = node :: rest)
    (hfb : p.free_blocks ≠ 0) :
    mempool_alloc (some p) false =
      ⟨MEMPOOL_OK, some (alloc_commit p node rest), some node,
        mempool_internal_lock (some p) ++
          mempool_internal_unlock (some (alloc_commit p node rest))⟩ := by
  simp [mempool_alloc, hinit, hfl, hfb]

theorem alloc_pool_cases (p : Mempool) (b : Bool) :
    (mempool_alloc (some p) b).pool = some p ∨
    ∃ node rest, p.free_list = node :: rest ∧ p.free_blocks ≠ 0 ∧
      (mempool_alloc (some p) b).pool = some (alloc_commit p node rest) := by
  by_cases hb : b = true
  · left; simp [mempool_alloc, hb]
  · by_cases hinit : p.initialized = false
    · left; simp [mempool_alloc, hb, hinit]
    · cases hfl : p.free_list with
      | nil => left; simp [mempool_alloc, hb, hinit, hfl]
      | cons node rest =>
        by_cases hfb : p.free_blocks = 0
        · left; simp [mempool_alloc, hb, hinit, hfl, hfb]
        · right
          exact ⟨node, rest, rfl, hfb, by simp [mempool_alloc, hb, hinit, hfl, hfb]⟩

theorem alloc_commit_bitmap (p : Mempool) (hp : PoolInv p) {node : Nat}
    (rest : List Nat) {i : Nat} (hi : i < p.total_blocks)
    (hnode : node = addr_of p i) :
    (alloc_commit p node rest).bitmap =
      p.bitmap.set (i / 8) (p.bitmap.getD (i / 8) 0 ||| 1 <<< (i % 8)) := by
  have hidx : mempool_block_index p node = i := by
    rw [hnode]; exact block_index_addr_of p hp.bs_pos (lt_trans hi hp.total_lt)
  have hbyte : i / 8 < p.bitmap_bytes := by
    rw [hp.bb_eq]; omega
  simp [alloc_commit, hidx, hbyte]

theorem alloc_commit_bits (p : Mempool) (hp : PoolInv p) {node : Nat}
    (rest : List Nat) {i : Nat} (hi : i < p.total_blocks)
    (hnode : node = addr_of p i) (j : Nat) :
    bit_get (alloc_commit p node rest).bitmap j =
      (if j = i then true else bit_get p.bitmap j) := by
  rw [alloc_commit_bitmap p hp rest hi hnode]
  refine bit_get_set_or p.bitmap i j ?_
  rw [hp.bm_len, hp.bb_eq]
  omega

theorem alloc_commit_inv (p : Mempool) (hp : PoolInv p) {node : Nat}
    {rest : List Nat} (hfl : p.free_list = node :: rest) {i : Nat}
    (hi : i < p.total_blocks) (hnode : node = addr_of p i) :
    PoolInv (alloc_commit p node rest) := by
  have hfb : p.free_blocks = rest.length + 1 := by
    rw [hp.fb_len, hfl]; rfl
  have hfble := hp.fb_le
  have hTlt := hp.total_lt
  have hub : u32_sub p.total_blocks (p.free_blocks - 1)
      = p.total_blocks - (p.free_blocks - 1) :=
    u32_sub_eq (by omega) hTlt
  have hbits := alloc_commit_bits p hp rest hi hnode
  have hflq : (alloc_commit p node rest).free_list = rest := rfl
  have hfbq : (alloc_commit p node rest).free_blocks = p.free_blocks - 1 := rfl
  have httq : (alloc_commit p node rest).total_blocks = p.total_blocks := rfl
  have haddr : ∀ j, addr_of (alloc_commit p node rest) j = addr_of p j := fun j => rfl
  have hacq : (alloc_commit p node rest).stats.alloc_count
      = (p.stats.alloc_count + 1) % U32_MOD := rfl
  have hubq : (alloc_commit p node rest).stats.used_blocks
      = u32_sub p.total_blocks (p.free_blocks - 1) := rfl
  have hsfq : (alloc_commit p node rest).stats.free_blocks = p.free_blocks - 1 := rfl
  have hpkq : (alloc_commit p node rest).stats.peak_usage
      = (if p.stats.peak_usage < u32_sub p.total_blocks (p.free_blocks - 1)
         then u32_sub p.total_blocks (p.free_blocks - 1)
         else p.stats.peak_usage) := rfl
  have hfcq : (alloc_commit p node rest).stats.free_count = p.stats.free_count := rfl
  have hstot : (alloc_commit p node rest).stats.total_blocks = p.stats.total_blocks := rfl
  have hsbs : (alloc_commit p node rest).stats.block_size = p.stats.block_size := rfl
  have hnodup := hp.fl_nodup
  rw [hfl] at hnodup
  refine ⟨hp.init_flag, hp.total_pos, hp.total_lt, hp.bs_pos, hp.bb_eq,
    ?_, ?_, ?_, ?_, ?_, ?_, ?_, ?_, ?_, ?_, ?_, ?_, ?_, ?_, ?_, ?_⟩
  · rw [alloc_commit_bitmap p hp rest hi hnode]
    simpa using hp.bm_len
  · rw [alloc_commit_bitmap p hp rest hi hnode]
    intro b hb
    rcases List.mem_or_eq_of_mem_set hb with h | h
    · exact hp.bm_bytes b h
    · rw [h]
      exact or_mask_lt _ _ (getD_lt_of_forall _ _ _ (by norm_num) hp.bm_bytes)
        (Nat.mod_lt _ (by norm_num))
  · rw [hflq, hfbq]; omega
  · rw [hfbq, httq]; omega
  · rw [hflq]; exact hnodup.of_cons
  · rw [hflq]; intro a ha
    obtain ⟨j, hj, hja⟩ := hp.fl_mem a (by rw [hfl]; exact List.mem_cons_of_mem _ ha)
    exact ⟨j, by rw [httq]; exact hj, by rw [haddr]; exact hja⟩
  · intro j hj
    rw [httq] at hj
    rw [hbits j, hflq, haddr]
    by_cases hji : j = i
    · subst hji
      rw [if_pos rfl]
      refine ⟨fun _ => ?_, fun _ => rfl⟩
      rw [← hnode]
      exact (List.nodup_cons.mp hnodup).1
    · rw [if_neg hji]
      have hiff := hp.bit_iff j hj
      rw [hfl] at hiff
      rw [hiff]
      have hne : addr_of p j ≠ node := by
        rw [hnode]; intro h; exact hji (addr_of_inj p hp.bs_pos h)
      constructor
      · intro h hmem; exact h (List.mem_cons_of_mem _ hmem)
      · intro h hmem
        rcases List.mem_cons.mp hmem with h' | h'
        · exact hne h'
        · exact h h'
  · rw [hstot, httq]; exact hp.st_total
  · rw [hsfq, hfbq]
  · rw [hubq, httq, hfbq, hub]
  · rw [hubq, hpkq, hub]
    split <;> omega
  · rw [hpkq, hub]
    have := hp.st_peak_lt
    split <;> omega
  · rw [hacq]
    have : 0 < U32_MOD := by unfold U32_MOD; norm_num
    exact Nat.mod_lt _ this
  · rw [hfcq]; exact hp.st_fc_lt
  · rw [hacq, hfcq, httq, hfbq]
    have hcount := hp.st_count
    have hac := hp.st_ac_lt
    have hfc := hp.st_fc_lt
    unfold u32_sub U32_MOD at *
    omega
  · rw [hsbs]; exact hp.st_bs

theorem free_pool_cases (p : Mempool) (a : Nat) :
    (mempool_free (some p) a).pool = some p ∨
    (p.initialized = true ∧ a ≠ 0 ∧
      p.blocks_start ≤ a ∧ a < p.blocks_start + p.total_blocks * p.block_size ∧
      (a - p.blocks_start) % p.block_size = 0 ∧
      mempool_block_index p a / 8 < p.bitmap_bytes ∧
      p.bitmap.getD (mempool_block_index p a / 8) 0
        &&& (1 <<< (mempool_block_index p a % 8)) ≠ 0 ∧
      (mempool_free (some p) a).pool =
        some (free_commit p a (mempool_block_index p a / 8)
          (p.bitmap.getD (mempool_block_index p a / 8) 0)
          (1 <<< (mempool_block_index p a % 8)))) := by
  by_cases h0 : a = 0
  · left; simp [mempool_free, h0]
  by_cases hinit : p.initialized = false
  · left; simp [mempool_free, h0, hinit]
  by_cases hrange : a < p.blocks_start ∨ p.blocks_start + p.total_blocks * p.block_size ≤ a
  · left; simp [mempool_free, h0, hinit, hrange]
  by_cases hmod : (a - p.blocks_start) % p.block_size = 0
  case neg => left; simp [mempool_free, h0, hinit, hrange, hmod]
  by_cases hbb : p.bitmap_bytes ≤ mempool_block_index p a / 8
  · left; simp [mempool_free, h0, hinit, hrange, hmod, hbb]
  by_cases hbit : p.bitmap.getD (mempool_block_index p a / 8) 0
      &&& (1 <<< (mempool_block_index p a % 8)) = 0
  · left
    have hbit2 := hbit
    simp only [List.getD_eq_getElem?_getD] at hbit2
    simp [mempool_free, h0, hinit, hrange, hmod, hbb, hbit2]
  · right
    rw [Bool.not_eq_false] at hinit
    push_neg at hrange
    refine ⟨hinit, h0, hrange.1, hrange.2, hmod, by omega, hbit, ?_⟩
    have hbit2 := hbit
    simp only [List.getD_eq_getElem?_getD] at hbit2
    simp [mempool_free, h0, hinit, hrange.1, Nat.not_lt.mpr hrange.1,
      Nat.not_le.mpr hrange.2, hmod, hbb, hbit2, List.getD_eq_getElem?_getD]

theorem free_index_eq (p : Mempool) (hp : PoolInv p) {a : Nat}
    (h1 : p.blocks_start ≤ a) (h2 : a < p.blocks_start + p.total_blocks * p.block_size)
    (h3 : (a - p.blocks_start) % p.block_size = 0) :
    mempool_block_index p a = (a - p.blocks_start) / p.block_size ∧
    (a - p.blocks_start) / p.block_size < p.total_blocks ∧
    a = addr_of p ((a - p.blocks_start) / p.block_size) := by
  obtain ⟨hlt, heq⟩ := index_of_valid_ptr p hp.bs_pos h1 h2 h3
  refine ⟨?_, hlt, heq⟩
  unfold mempool_block_index
  exact Nat.mod_eq_of_lt (lt_trans hlt hp.total_lt)

theorem free_commit_bits (p : Mempool) (hp : PoolInv p) (a : Nat) {i : Nat}
    (hi : i < p.total_blocks) (j : Nat) :
    bit_get (free_commit p a (i / 8) (p.bitmap.getD (i / 8) 0)
        (1 <<< (i % 8))).bitmap j
      = (if j = i then false else bit_get p.bitmap j) := by
  have hlen : i / 8 < p.bitmap.length := by
    rw [hp.bm_len, hp.bb_eq]; omega
  exact bit_get_set_andnot p.bitmap i j hlen

theorem free_commit_inv (p : Mempool) (hp : PoolInv p) {a i : Nat}
    (hi : i < p.total_blocks) (ha : a = addr_of p i)
    (hbit : bit_get p.bitmap i = true) :
    PoolInv (free_commit p a (i / 8) (p.bitmap.getD (i / 8) 0) (1 <<< (i % 8))) := by
  have hnotin : addr_of p i ∉ p.free_list := (hp.bit_iff i hi).mp hbit
  have hlt : p.free_list.length < p.total_blocks := free_list_length_lt p hp hi hnotin
  have hfb : p.free_blocks < p.total_blocks := by rw [hp.fb_len]; exact hlt
  have hTlt := hp.total_lt
  have hbits := free_commit_bits p hp a hi
  have hfbq : (free_commit p a (i / 8) (p.bitmap.getD (i / 8) 0)
      (1 <<< (i % 8))).free_blocks = p.free_blocks + 1 := by
    show (if p.free_blocks < p.total_blocks then p.free_blocks + 1 else p.free_blocks) = _
    rw [if_pos hfb]
  have hflq : (free_commit p a (i / 8) (p.bitmap.getD (i / 8) 0)
      (1 <<< (i % 8))).free_list = a :: p.free_list := rfl
  have httq : (free_commit p a (i / 8) (p.bitmap.getD (i / 8) 0)
      (1 <<< (i % 8))).total_blocks = p.total_blocks := rfl
  have haddr : ∀ j, addr_of (free_commit p a (i / 8) (p.bitmap.getD (i / 8) 0)
      (1 <<< (i % 8))) j = addr_of p j := fun j => rfl
  have hbmq : (free_commit p a (i / 8) (p.bitmap.getD (i / 8) 0)
      (1 <<< (i % 8))).bitmap
      = p.bitmap.set (i / 8)
          (p.bitmap.getD (i / 8) 0 &&& (255 ^^^ 1 <<< (i % 8))) := rfl
  have hfcq : (free_commit p a (i / 8) (p.bitmap.getD (i / 8) 0)
      (1 <<< (i % 8))).stats.free_count = (p.stats.free_count + 1) % U32_MOD := rfl
  have hacq : (free_commit p a (i / 8) (p.bitmap.getD (i / 8) 0)
      (1 <<< (i % 8))).stats.alloc_count = p.stats.alloc_count := rfl
  have hubq : (free_commit p a (i / 8) (p.bitmap.getD (i / 8) 0)
      (1 <<< (i % 8))).stats.used_blocks
      = u32_sub p.total_blocks ((free_commit p a (i / 8) (p.bitmap.getD (i / 8) 0)
          (1 <<< (i % 8))).free_blocks) := rfl
  have hsfq : (free_commit p a (i / 8) (p.bitmap.getD (i / 8) 0)
      (1 <<< (i % 8))).stats.free_blocks
      = (free_commit p a (i / 8) (p.bitmap.getD (i / 8) 0)
          (1 <<< (i % 8))).free_blocks := rfl
  have hpkq : (free_commit p a (i / 8) (p.bitmap.getD (i / 8) 0)
      (1 <<< (i % 8))).stats.peak_usage = p.stats.peak_usage := rfl
  have hstot : (free_commit p a (i / 8) (p.bitmap.getD (i / 8) 0)
      (1 <<< (i % 8))).stats.total_blocks = p.stats.total_blocks := rfl
  have hsbs : (free_commit p a (i / 8) (p.bitmap.getD (i / 8) 0)
      (1 <<< (i % 8))).stats.block_size = p.stats.block_size := rfl
  have hub : u32_sub p.total_blocks (p.free_blocks + 1)
      = p.total_blocks - (p.free_blocks + 1) :=
    u32_sub_eq (by omega) hTlt
  refine ⟨hp.init_flag, hp.total_pos, hp.total_lt, hp.bs_pos, hp.bb_eq,
    ?_, ?_, ?_, ?_, ?_, ?_, ?_, ?_, ?_, ?_, ?_, ?_, ?_, ?_, ?_, ?_⟩
  · rw [hbmq]
    simpa using hp.bm_len
  · rw [hbmq]
    intro b hb
    rcases List.mem_or_eq_of_mem_set hb with h | h
    · exact hp.bm_bytes b h
    · rw [h]
      calc p.bitmap.getD (i / 8) 0 &&& (255 ^^^ 1 <<< (i % 8))
          ≤ p.bitmap.getD (i / 8) 0 := Nat.and_le_left
        _ < 256 := getD_lt_of_forall _ _ _ (by norm_num) hp.bm_bytes
  · rw [hflq, hfbq]
    simp [hp.fb_len]
  · rw [hfbq, httq]; omega
  · rw [hflq]
    exact List.nodup_cons.mpr ⟨ha ▸ hnotin, hp.fl_nodup⟩
  · rw [hflq]; intro x hx
    rcases List.mem_cons.mp hx with h | h
    · exact ⟨i, by rw [httq]; exact hi, by rw [haddr, h]; exact ha⟩
    · obtain ⟨j, hj, hja⟩ := hp.fl_mem x h
      exact ⟨j, by rw [httq]; exact hj, by rw [haddr]; exact hja⟩
  · intro j hj
    rw [httq] at hj
    rw [hbits j, hflq, haddr]
    by_cases hji : j = i
    · subst hji
      rw [if_pos rfl]
      constructor
      · intro h; exact absurd h (by simp)
      · intro h
        exact absurd (List.mem_cons_self a p.free_list) (by rw [← ha] at h; exact h)
    · rw [if_neg hji]
      have hiff := hp.bit_iff j hj
      rw [hiff]
      have hne : addr_of p j ≠ a := by
        rw [ha]; intro h; exact hji (addr_of_inj p hp.bs_pos h)
      constructor
      · intro h hmem
        rcases List.mem_cons.mp hmem with h' | h'
        · exact hne h'
        · exact h h'
      · intro h hmem; exact h (List.mem_cons_of_mem _ hmem)
  · rw [hstot, httq]; exact hp.st_total
  · rw [hsfq]
  · rw [hubq, httq, hfbq]; exact hub
  · rw [hubq, hpkq, hfbq, hub]
    have := hp.st_peak
    have := hp.st_used
    omega
  · rw [hpkq]; exact hp.st_peak_lt
  · rw [hacq]; exact hp.st_ac_lt
  · rw [hfcq]
    have : 0 < U32_MOD := by unfold U32_MOD; norm_num
    exact Nat.mod_lt _ this
  · rw [hacq, hfcq, httq, hfbq]
    have hcount := hp.st_count
    have hac := hp.st_ac_lt
    have hfc := hp.st_fc_lt
    have hused := hp.st_used
    unfold u32_sub U32_MOD at *
    omega
  · rw [hsbs]; exact hp.st_bs

theorem reset_pool_cases (p : Mempool) :
    (mempool_reset (some p)).pool = some p ∨
    (p.initialized = true ∧ (mempool_reset (some p)).pool = some (reset_commit p)) := by
  by_cases hinit : p.initialized = false
  · left; simp [mempool_reset, hinit]
  · right
    refine ⟨by rwa [Bool.not_eq_false] at hinit, by simp [mempool_reset, hinit]⟩

theorem reset_commit_inv (p : Mempool) (hp : PoolInv p) : PoolInv (reset_commit p) :=
  fresh_inv _ hp.init_flag hp.total_pos hp.total_lt hp.bs_pos hp.bb_eq rfl rfl rfl rfl

theorem get_stats_pool_eq (p : Mempool) (s : Bool) :
    (mempool_get_stats (some p) s).pool = some p := by
  by_cases hs : s = true
  · simp [mempool_get_stats, hs]
  · by_cases hinit : p.initialized = false <;> simp [mempool_get_stats, hs, hinit]

theorem set_sync_inv (p : Mempool) (hp : PoolInv p) (lk ulk : Option Nat) (ctx : Nat)
    {p' : Mempool} (h : (mempool_set_sync (some p) lk ulk ctx).pool = some p') :
    PoolInv p' := by
  have hinit := hp.init_flag
  simp [mempool_set_sync, hinit] at h
  rw [← h]
  exact ⟨rfl, hp.total_pos, hp.total_lt, hp.bs_pos, hp.bb_eq, hp.bm_len,
    hp.bm_bytes, hp.fb_len, hp.fb_le, hp.fl_nodup, hp.fl_mem, hp.bit_iff,
    hp.st_total, hp.st_free, hp.st_used, hp.st_peak, hp.st_peak_lt, hp.st_ac_lt,
    hp.st_fc_lt, hp.st_count, hp.st_bs⟩

theorem reachable_inv {p : Mempool} (h : Reachable p) : PoolInv p := by
  induction h with
  | init szm szfn sb ssz pb pbs bs al q hok => exact init_ok_inv hok
  | alloc q p' b _ hpool ih =>
    rcases alloc_pool_cases q b with hcase | ⟨node, rest, hfl, hfb, hcase⟩
    · rw [hcase] at hpool
      rw [← Option.some.inj hpool]
      exact ih
    · rw [hcase] at hpool
      rw [← Option.some.inj hpool]
      obtain ⟨i, hi, hnode⟩ := ih.fl_mem node (by rw [hfl]; exact List.mem_cons_self _ _)
      exact alloc_commit_inv q ih hfl hi hnode
  | free q p' a _ hpool ih =>
    rcases free_pool_cases q a with hcase | ⟨hinit, h0, h1, h2, h3, hbb, hbit, hcase⟩
    · rw [hcase] at hpool
      rw [← Option.some.inj hpool]
      exact ih
    · obtain ⟨hidx, hilt, haeq⟩ := free_index_eq q ih h1 h2 h3
      rw [hcase] at hpool
      rw [← Option.some.inj hpool, hidx]
      rw [hidx] at hbit
      have hbit' : bit_get q.bitmap ((a - q.blocks_start) / q.block_size) = true :=
        (and_mask_ne_zero_iff _ _).mp hbit
      exact free_commit_inv q ih hilt haeq hbit'
  | reset q p' _ hpool ih =>
    rcases reset_pool_cases q with hcase | ⟨hinit, hcase⟩
    · rw [hcase] at hpool
      rw [← Option.some.inj hpool]
      exact ih
    · rw [hcase] at hpool
      rw [← Option.some.inj hpool]
      exact reset_commit_inv q ih
  | get_stats q p' s _ hpool ih =>
    rw [get_stats_pool_eq] at hpool
    rw [← Option.some.inj hpool]
    exact ih
  | set_sync q p' lk ulk ctx _ hpool ih =>
    exact set_sync_inv q ih lk ulk ctx hpool

theorem getD_replicate_zero (n i : Nat) : (List.replicate n (0 : Nat)).getD i 0 = 0 := by
  rcases Nat.lt_or_ge i n with h | h
  · rw [List.getD_eq_getElem _ _ (by simpa using h)]
    simp
  · rw [List.getD_eq_default _ _ (by simpa using h)]

theorem free_spec (p : Mempool) (hp : PoolInv p) {a i : Nat} (h0 : a ≠ 0)
    (hi : i < p.total_blocks) (ha : a = addr_of p i) :
    (bit_get p.bitmap i = false →
      mempool_free (some p) a = ⟨MEMPOOL_ERR_DOUBLE_FREE, some p,
        mempool_internal_lock (some p) ++ mempool_internal_unlock (some p)⟩) ∧
    (bit_get p.bitmap i = true →
      mempool_free (some p) a = ⟨MEMPOOL_OK,
        some (free_commit p a (i / 8) (p.bitmap.getD (i / 8) 0) (1 <<< (i % 8))),
        mempool_internal_lock (some p) ++
          mempool_internal_unlock (some (free_commit p a (i / 8)
            (p.bitmap.getD (i / 8) 0) (1 <<< (i % 8))))⟩) := by
  have hinit := hp.init_flag
  have hbs := hp.bs_pos
  have hlow : p.blocks_start ≤ a := by rw [ha]; unfold addr_of; omega
  have hhigh : a < p.blocks_start + p.total_blocks * p.block_size := by
    rw [ha]; unfold addr_of
    have : i * p.block_size < p.total_blocks * p.block_size :=
      (Nat.mul_lt_mul_right hbs).mpr hi
    omega
  have hnr : ¬(a < p.blocks_start ∨ p.blocks_start + p.total_blocks * p.block_size ≤ a) := by
    omega
  have hoff : a - p.blocks_start = i * p.block_size := by rw [ha]; unfold addr_of; omega
  have hmod : (a - p.blocks_start) % p.block_size = 0 := by
    rw [hoff]; exact Nat.mul_mod_left i p.block_size
  have hidx : mempool_block_index p a = i := by
    rw [ha]; exact block_index_addr_of p hbs (lt_trans hi hp.total_lt)
  have hbyte : ¬(p.bitmap_bytes ≤ mempool_block_index p a / 8) := by
    rw [hidx, hp.bb_eq]; omega
  constructor
  · intro hbit
    have hzero : p.bitmap.getD (mempool_block_index p a / 8) 0
        &&& 1 <<< (mempool_block_index p a % 8) = 0 := by
      rw [hidx]
      by_contra hne
      have := (and_mask_ne_zero_iff _ _).mp hne
      unfold bit_get at hbit
      rw [hbit] at this
      exact absurd this (by simp)
    have hzero2 := hzero
    simp only [List.getD_eq_getElem?_getD] at hzero2
    simp [mempool_free, h0, hinit, hnr, hmod, hbyte, hzero2]
  · intro hbit
    have hne : p.bitmap.getD (mempool_block_index p a / 8) 0
        &&& 1 <<< (mempool_block_index p a % 8) ≠ 0 := by
      rw [hidx]
      exact (and_mask_ne_zero_iff _ _).mpr hbit
    have hne2 := hne
    rw [hidx] at hne2
    simp only [List.getD_eq_getElem?_getD] at hne2
    have hbyte2 := hbyte
    rw [hidx] at hbyte2
    simp [mempool_free, h0, hinit, hnr, hmod, hbyte, hbyte2, hne2, hidx,
      List.getD_eq_getElem?_getD]

theorem alloc_run_spec (k : Nat) :
    ∀ p : Mempool, PoolInv p → k = p.free_list.length →
    (alloc_run p k).2 = p.free_list ∧ PoolInv (alloc_run p k).1 ∧
    (alloc_run p k).1.free_list = [] ∧
    (alloc_run p k).1.blocks_start = p.blocks_start ∧
    (alloc_run p k).1.block_size = p.block_size ∧
    (alloc_run p k).1.total_blocks = p.total_blocks ∧
    (alloc_run p k).1.free_blocks = p.free_blocks - k := by
  induction k with
  | zero =>
    intro p hp hk
    have : p.free_list = [] := List.length_eq_zero.mp hk.symm
    exact ⟨this.symm, hp, this, rfl, rfl, rfl, rfl⟩
  | succ m ih =>
    intro p hp hk
    cases hfl : p.free_list with
    | nil => rw [hfl] at hk; simp at hk
    | cons node rest =>
      have hfb0 : p.free_blocks = m + 1 := by
        rw [hp.fb_len, hfl]
        rw [hfl] at hk
        simpa using hk.symm
      have hfb : p.free_blocks ≠ 0 := by omega
      have hstep : alloc_step p = (alloc_commit p node rest, some node) := by
        unfold alloc_step
        rw [alloc_eq_success p hp.init_flag hfl hfb]
        rfl
      obtain ⟨i, hi, hnode⟩ := hp.fl_mem node (by rw [hfl]; exact List.mem_cons_self _ _)
      have hq := alloc_commit_inv p hp hfl hi hnode
      have hrest : (alloc_commit p node rest).free_list = rest := rfl
      have hm : m = (alloc_commit p node rest).free_list.length := by
        rw [hrest]
        rw [hfl] at hk
        simpa using hk
      obtain ⟨ho, hinv, hempt, hbs', hsz', htt', hfb'⟩ :=
        ih (alloc_commit p node rest) hq hm
      have hrun : alloc_run p (m + 1) =
          ((alloc_run (alloc_commit p node rest) m).1,
            node :: (alloc_run (alloc_commit p node rest) m).2) := by
        show (let s := alloc_step p
              let r := alloc_run s.1 m
              (r.1, (match s.2 with | some a => [a] | none => []) ++ r.2)) = _
        rw [hstep]
        rfl
      rw [hrun]
      refine ⟨by simp [ho, hrest, hfl], hinv, hempt, hbs', hsz', htt', ?_⟩
      have : (alloc_commit p node rest).free_blocks = p.free_blocks - 1 := rfl
      rw [hfb', this]
      omega

theorem init_ok_shape {szm szfn sb ssz pb pbs bs al : Nat} {b : Bool} {p : Mempool}
    (h : mempool_init szm szfn sb ssz pb pbs bs al b = .ok p) :
    p.free_list = build_free_list p.blocks_start p.block_size p.total_blocks ∧
    p.free_blocks = p.total_blocks ∧
    p.bitmap = List.replicate p.bitmap_bytes 0 ∧
    p.stats = ⟨p.total_blocks, 0, p.total_blocks, 0, 0, 0, p.block_size⟩ ∧
    p.sync_enabled = false := by
  simp only [mempool_init] at h
  split at h; · exact absurd h (by simp)
  split at h; · exact absurd h (by simp)
  split at h; · exact absurd h (by simp)
  split at h; · exact absurd h (by simp)
  split at h; · exact absurd h (by simp)
  split at h; · exact absurd h (by simp)
  split at h; · exact absurd h (by simp)
  split at h
  · exact absurd h (by simp)
  split at h; · exact absurd h (by simp)
  obtain rfl : _ = p := by simpa using h
  exact ⟨rfl, rfl, rfl, rfl, rfl⟩

theorem build_free_list_eq_map (base size n : Nat) :
    build_free_list base size n =
      (List.range n).reverse.map (fun i => base + i * size) := by
  induction n with
  | zero => rfl
  | succ k ih =>
    rw [build_free_list, List.range_succ]
    simp [ih]

theorem pool7_reachable : Reachable pool7 :=
  Reachable.init 1 8 1 1 1 64 8 1 pool7 rfl

theorem pool7_inv : PoolInv pool7 := reachable_inv pool7_reachable

theorem p7a_reachable : Reachable p7a :=
  Reachable.alloc pool7 p7a false pool7_reachable rfl

/-- C1: for every initialized pool, after every public operation (`alloc`,
`free`, `reset`, `get_stats`, `set_sync`, starting from `init`) the statistics
satisfy `used_blocks + free_blocks = total_blocks`,
`peak_usage ≥ used_blocks`, and `alloc_count - free_count = used_blocks` in
unsigned 32-bit arithmetic. -/
theorem C1_stats_invariants (p : Mempool) (h : Reachable p) :
    p.stats.used_blocks + p.stats.free_blocks = p.stats.total_blocks ∧
    p.stats.used_blocks ≤ p.stats.peak_usage ∧
    (p.stats.alloc_count + U32_MOD - p.stats.free_count) % U32_MOD
      = p.stats.used_blocks := by
  have hp := reachable_inv h
  refine ⟨?_, hp.st_peak, ?_⟩
  · rw [hp.st_used, hp.st_free, hp.st_total]
    have := hp.fb_le
    omega
  · rw [hp.st_count, hp.st_used]

theorem C1_stats_invariants_witness :
    p7a.stats.used_blocks + p7a.stats.free_blocks = p7a.stats.total_blocks ∧
    p7a.stats.used_blocks ≤ p7a.stats.peak_usage ∧
    (p7a.stats.alloc_count + U32_MOD - p7a.stats.free_count) % U32_MOD
      = p7a.stats.used_blocks :=
  C1_stats_invariants p7a p7a_reachable

/-- C2: in every reachable state of an initialized pool, bitmap bit `i` is set
iff block `i` is not on the free list, the free-list length equals
`free_blocks`, and the free list has no duplicates; every operation preserves
this (preservation is the induction over `Reachable`). -/
theorem C2_bitmap_matches_free_list (p : Mempool) (h : Reachable p) :
    (∀ i, i < p.total_blocks →
      (bit_get p.bitmap i = true ↔ addr_of p i ∉ p.free_list)) ∧
    p.free_list.length = p.free_blocks ∧
    p.free_list.Nodup := by
  have hp := reachable_inv h
  exact ⟨hp.bit_iff, hp.fb_len.symm, hp.fl_nodup⟩

theorem C2_bitmap_matches_free_list_witness :
    (∀ i, i < p7a.total_blocks →
      (bit_get p7a.bitmap i = true ↔ addr_of p7a i ∉ p7a.free_list)) ∧
    p7a.free_list.length = p7a.free_blocks ∧
    p7a.free_list.Nodup :=
  C2_bitmap_matches_free_list p7a p7a_reachable

/-- C10: whenever `mempool_alloc` returns an error (NULL_PTR, NOT_INITIALIZED
or OUT_OF_MEMORY) the output parameter `*block` is not written, and
`mempool_get_stats` writes `*stats` exactly when it returns OK. -/
theorem C10_output_untouched_on_error (pool : Option Mempool) (b s : Bool) :
    ((mempool_alloc pool b).error ≠ MEMPOOL_OK →
      (mempool_alloc pool b).block_out = none) ∧
    ((mempool_get_stats pool s).error = MEMPOOL_OK ↔
      (mempool_get_stats pool s).stats_out.isSome = true) := by
  constructor
  · cases pool with
    | none => intro _; rfl
    | some p =>
      by_cases hb : b = true
      · intro _; simp [mempool_alloc, hb]
      by_cases hinit : p.initialized = false
      · intro _; simp [mempool_alloc, hb, hinit]
      cases hfl : p.free_list with
      | nil => intro _; simp [mempool_alloc, hb, hinit, hfl]
      | cons node rest =>
        by_cases hfb : p.free_blocks = 0
        · intro _; simp [mempool_alloc, hb, hinit, hfl, hfb]
        · intro herr
          refine absurd ?_ herr
          simp [mempool_alloc, hb, hinit, hfl, hfb]
  · cases pool with
    | none => simp [mempool_get_stats]
    | some p =>
      by_cases hs : s = true
      · simp [mempool_get_stats, hs]
      by_cases hinit : p.initialized = false
      · simp [mempool_get_stats, hs, hinit]
      · simp [mempool_get_stats, hs, hinit]

theorem C10_output_untouched_on_error_witness :
    (mempool_alloc none false).block_out = none ∧
    ((mempool_get_stats (some pool7) false).error = MEMPOOL_OK ↔
      (mempool_get_stats (some pool7) false).stats_out.isSome = true) :=
  ⟨(C10_output_untouched_on_error none false false).1 (by decide),
    (C10_output_untouched_on_error (some pool7) false false).2⟩

theorem lock_events_nil (q : Mempool) (hq : q.sync_enabled = false) :
    mempool_internal_lock (some q) = [] := by
  simp [mempool_internal_lock, hq]

theorem unlock_events_nil (q : Mempool) (hq : q.sync_enabled = false) :
    mempool_internal_unlock (some q) = [] := by
  simp [mempool_internal_unlock, hq]

theorem alloc_events_disabled (q : Mempool) (hq : q.sync_enabled = false) (b : Bool) :
    (mempool_alloc (some q) b).events = [] := by
  have hcommit : ∀ node rest, (alloc_commit q node rest).sync_enabled = false := fun _ _ => hq
  by_cases hb : b = true
  · simp [mempool_alloc, hb]
  by_cases hinit : q.initialized = false
  · simp [mempool_alloc, hb, hinit]
  cases hfl : q.free_list with
  | nil =>
    simp [mempool_alloc, hb, hinit, hfl, lock_events_nil q hq, unlock_events_nil q hq]
  | cons node rest =>
    by_cases hfb : q.free_blocks = 0
    · simp [mempool_alloc, hb, hinit, hfl, hfb, lock_events_nil q hq,
        unlock_events_nil q hq]
    · simp [mempool_alloc, hb, hinit, hfl, hfb, lock_events_nil q hq,
        unlock_events_nil _ (hcommit node rest)]

theorem free_events_disabled (q : Mempool) (hq : q.sync_enabled = false) (a : Nat) :
    (mempool_free (some q) a).events = [] := by
  by_cases h0 : a = 0
  · simp [mempool_free, h0]
  by_cases hinit : q.initialized = false
  · simp [mempool_free, h0, hinit]
  by_cases hrange : a < q.blocks_start ∨ q.blocks_start + q.total_blocks * q.block_size ≤ a
  · simp [mempool_free, h0, hinit, hrange]
  by_cases hmod : (a - q.blocks_start) % q.block_size = 0
  case neg => simp [mempool_free, h0, hinit, hrange, hmod]
  by_cases hbb : q.bitmap_bytes ≤ mempool_block_index q a / 8
  · simp [mempool_free, h0, hinit, hrange, hmod, hbb, lock_events_nil q hq,
      unlock_events_nil q hq]
  by_cases hbit : q.bitmap.getD (mempool_block_index q a / 8) 0
      &&& (1 <<< (mempool_block_index q a % 8)) = 0
  · have hbit2 := hbit
    simp only [List.getD_eq_getElem?_getD] at hbit2
    simp [mempool_free, h0, hinit, hrange, hmod, hbb, hbit2, lock_events_nil q hq,
      unlock_events_nil q hq]
  · have hbit2 := hbit
    simp only [List.getD_eq_getElem?_getD] at hbit2
    have hfc : ∀ bi bv mk, (free_commit q a bi bv mk).sync_enabled = false :=
      fun _ _ _ => hq
    simp [mempool_free, h0, hinit, hrange, hmod, hbb, hbit2, lock_events_nil q hq,
      unlock_events_nil _ (hfc _ _ _)]

theorem reset_events_disabled (q : Mempool) (hq : q.sync_enabled = false) :
    (mempool_reset (some q)).events = [] := by
  by_cases hinit : q.initialized = false
  · simp [mempool_reset, hinit]
  · have hrc : (reset_commit q).sync_enabled = false := hq
    simp [mempool_reset, hinit, lock_events_nil q hq, unlock_events_nil _ hrc]

theorem get_stats_events_disabled (q : Mempool) (hq : q.sync_enabled = false) (s : Bool) :
    (mempool_get_stats (some q) s).events = [] := by
  by_cases hs : s = true
  · simp [mempool_get_stats, hs]
  by_cases hinit : q.initialized = false
  · simp [mempool_get_stats, hs, hinit]
  · simp [mempool_get_stats, hs, hinit, lock_events_nil q hq, unlock_events_nil q hq]

/-- C8: on an initialized pool, `mempool_set_sync` with a null lock or a null
unlock callback disables synchronization — no lock or unlock hook fires in any
subsequent operation — and overwrites (clears) the previously installed
callbacks in the hook record with the given arguments. -/
theorem C8_set_sync_null_disables (p : Mempool) (lk ulk : Option Nat) (ctx : Nat)
    (hinit : p.initialized = true) (hnull : lk = none ∨ ulk = none) :
    ∃ p', (mempool_set_sync (some p) lk ulk ctx).error = MEMPOOL_OK ∧
      (mempool_set_sync (some p) lk ulk ctx).pool = some p' ∧
      p'.sync_enabled = false ∧
      p'.sync.lock = lk ∧ p'.sync.unlock = ulk ∧ p'.sync.user_ctx = ctx ∧
      mempool_internal_lock (some p') = [] ∧
      mempool_internal_unlock (some p') = [] ∧
      (∀ b, (mempool_alloc (some p') b).events = []) ∧
      (∀ a, (mempool_free (some p') a).events = []) ∧
      (mempool_reset (some p')).events = [] ∧
      (∀ s, (mempool_get_stats (some p') s).events = []) := by
  refine ⟨{ p with
            sync := { lock := lk, unlock := ulk, user_ctx := ctx }
            sync_enabled := lk.isSome && ulk.isSome }, ?_, ?_, ?_, rfl, rfl, rfl,
          ?_, ?_, ?_, ?_, ?_, ?_⟩
  · simp [mempool_set_sync, hinit]
  · simp [mempool_set_sync, hinit]
  · rcases hnull with rfl | rfl <;> simp
  all_goals
    have hq : ({ p with
        sync := { lock := lk, unlock := ulk, user_ctx := ctx }
        sync_enabled := lk.isSome && ulk.isSome } : Mempool).sync_enabled = false := by
      rcases hnull with rfl | rfl <;> simp
  · exact lock_events_nil _ hq
  · exact unlock_events_nil _ hq
  · exact fun b => alloc_events_disabled _ hq b
  · exact fun a => free_events_disabled _ hq a
  · exact reset_events_disabled _ hq
  · exact fun s => get_stats_events_disabled _ hq s

theorem C8_set_sync_null_disables_witness :
    ∃ p', (mempool_set_sync (some pool7) none (some 5) 3).error = MEMPOOL_OK ∧
      (mempool_set_sync (some pool7) none (some 5) 3).pool = some p' ∧
      p'.sync_enabled = false ∧
      p'.sync.lock = none ∧ p'.sync.unlock = some 5 ∧ p'.sync.user_ctx = 3 ∧
      mempool_internal_lock (some p') = [] ∧
      mempool_internal_unlock (some p') = [] ∧
      (∀ b, (mempool_alloc (some p') b).events = []) ∧
      (∀ a, (mempool_free (some p') a).events = []) ∧
      (mempool_reset (some p')).events = [] ∧
      (∀ s, (mempool_get_stats (some p') s).events = []) :=
  C8_set_sync_null_disables pool7 none (some 5) 3 rfl (Or.inl rfl)

/-- C6: on an initialized pool, `mempool_reset` zeros the bitmap, rebuilds the
free list in init's canonical order (the same `build_free_list` loop), sets
`free_blocks = total_blocks`, zeroes `alloc_count`, `free_count`,
`peak_usage`, `used_blocks` while preserving `total_blocks` and `block_size`;
afterwards, freeing any in-range block-aligned pointer (e.g. one returned by
`alloc` before the reset) yields DOUBLE_FREE and leaves the pool unchanged. -/
theorem C6_reset_restores_and_invalidates (p : Mempool) (hp : PoolInv p) :
    (mempool_reset (some p)).error = MEMPOOL_OK ∧
    (mempool_reset (some p)).pool = some (reset_commit p) ∧
    (reset_commit p).bitmap = List.replicate p.bitmap_bytes 0 ∧
    (reset_commit p).free_list
      = build_free_list p.blocks_start p.block_size p.total_blocks ∧
    (reset_commit p).free_blocks = p.total_blocks ∧
    (reset_commit p).stats
      = ⟨p.total_blocks, 0, p.total_blocks, 0, 0, 0, p.block_size⟩ ∧
    (reset_commit p).total_blocks = p.total_blocks ∧
    (reset_commit p).block_size = p.block_size ∧
    (∀ a, a ≠ 0 → p.blocks_start ≤ a →
      a < p.blocks_start + p.total_blocks * p.block_size →
      (a - p.blocks_start) % p.block_size = 0 →
      (mempool_free (some (reset_commit p)) a).error = MEMPOOL_ERR_DOUBLE_FREE ∧
      (mempool_free (some (reset_commit p)) a).pool = some (reset_commit p)) := by
  have hinit := hp.init_flag
  refine ⟨by simp [mempool_reset, hinit], by simp [mempool_reset, hinit],
    rfl, rfl, rfl, rfl, rfl, rfl, ?_⟩
  intro a h0 hlow hhigh hmod
  have hq := reset_commit_inv p hp
  have hbseq : (reset_commit p).blocks_start = p.blocks_start := rfl
  have hszeq : (reset_commit p).block_size = p.block_size := rfl
  have htteq : (reset_commit p).total_blocks = p.total_blocks := rfl
  obtain ⟨hidx, hilt, haeq⟩ := @free_index_eq (reset_commit p) hq a hlow hhigh hmod
  have hbit : bit_get (reset_commit p).bitmap
      ((a - (reset_commit p).blocks_start) / (reset_commit p).block_size) = false := by
    show bit_get (List.replicate p.bitmap_bytes 0) _ = false
    exact bit_get_replicate_zero _ _
  have hfree := (free_spec (reset_commit p) hq h0 hilt haeq).1 hbit
  rw [hfree]
  exact ⟨rfl, rfl⟩

theorem C6_reset_restores_and_invalidates_witness :
    (mempool_reset (some pool7)).error = MEMPOOL_OK ∧
    (mempool_reset (some pool7)).pool = some (reset_commit pool7) ∧
    (reset_commit pool7).bitmap = List.replicate pool7.bitmap_bytes 0 ∧
    (reset_commit pool7).free_list
      = build_free_list pool7.blocks_start pool7.block_size pool7.total_blocks ∧
    (reset_commit pool7).free_blocks = pool7.total_blocks ∧
    (reset_commit pool7).stats
      = ⟨pool7.total_blocks, 0, pool7.total_blocks, 0, 0, 0, pool7.block_size⟩ ∧
    (reset_commit pool7).total_blocks = pool7.total_blocks ∧
    (reset_commit pool7).block_size = pool7.block_size ∧
    (∀ a, a ≠ 0 → pool7.blocks_start ≤ a →
      a < pool7.blocks_start + pool7.total_blocks * pool7.block_size →
      (a - pool7.blocks_start) % pool7.block_size = 0 →
      (mempool_free (some (reset_commit pool7)) a).error = MEMPOOL_ERR_DOUBLE_FREE ∧
      (mempool_free (some (reset_commit pool7)) a).pool = some (reset_commit pool7)) :=
  C6_reset_restores_and_invalidates pool7 pool7_inv

/-- C5: on an initialized pool, for a pointer passing the range and
block-boundary checks, `mempool_free` returns DOUBLE_FREE and mutates nothing
when the block's bitmap bit is clear; when the bit is set it pushes the block
onto the free list, increments `free_blocks` (staying ≤ `total_blocks`),
increments `free_count`, recomputes `used_blocks`, and clears the bit; hence
alloc → B, free(B) → OK, free(B) → DOUBLE_FREE leaves `free_count = 1`. -/
theorem C5_free_paths (p : Mempool) (hp : PoolInv p) :
    (∀ a, a ≠ 0 → p.blocks_start ≤ a →
      a < p.blocks_start + p.total_blocks * p.block_size →
      (a - p.blocks_start) % p.block_size = 0 →
      let i := (a - p.blocks_start) / p.block_size
      (bit_get p.bitmap i = false →
        mempool_free (some p) a = ⟨MEMPOOL_ERR_DOUBLE_FREE, some p,
          mempool_internal_lock (some p) ++ mempool_internal_unlock (some p)⟩) ∧
      (bit_get p.bitmap i = true →
        (mempool_free (some p) a).error = MEMPOOL_OK ∧
        (mempool_free (some p) a).pool = some (free_commit p a (i / 8)
          (p.bitmap.getD (i / 8) 0) (1 <<< (i % 8))) ∧
        (free_commit p a (i / 8) (p.bitmap.getD (i / 8) 0)
          (1 <<< (i % 8))).free_list = a :: p.free_list ∧
        (free_commit p a (i / 8) (p.bitmap.getD (i / 8) 0)
          (1 <<< (i % 8))).free_blocks = p.free_blocks + 1 ∧
        (free_commit p a (i / 8) (p.bitmap.getD (i / 8) 0)
          (1 <<< (i % 8))).free_blocks ≤ p.total_blocks ∧
        (free_commit p a (i / 8) (p.bitmap.getD (i / 8) 0)
          (1 <<< (i % 8))).stats.free_count = (p.stats.free_count + 1) % U32_MOD ∧
        (free_commit p a (i / 8) (p.bitmap.getD (i / 8) 0)
          (1 <<< (i % 8))).stats.used_blocks
          = p.total_blocks - (p.free_blocks + 1) ∧
        bit_get (free_commit p a (i / 8) (p.bitmap.getD (i / 8) 0)
          (1 <<< (i % 8))).bitmap i = false)) ∧
    (p.stats.free_count = 0 → 0 < p.blocks_start →
      ∀ node rest, p.free_list = node :: rest →
      (mempool_alloc (some p) false).error = MEMPOOL_OK ∧
      (mempool_alloc (some p) false).block_out = some node ∧
      (mempool_alloc (some p) false).pool = some (alloc_commit p node rest) ∧
      (mempool_free (some (alloc_commit p node rest)) node).error = MEMPOOL_OK ∧
      (∃ q2, (mempool_free (some (alloc_commit p node rest)) node).pool = some q2 ∧
        q2.stats.free_count = 1 ∧
        (mempool_free (some q2) node).error = MEMPOOL_ERR_DOUBLE_FREE)) := by
  constructor
  · intro a h0 h1 h2 h3
    intro i
    obtain ⟨hilt, haeq⟩ := index_of_valid_ptr p hp.bs_pos h1 h2 h3
    have hspec := free_spec p hp h0 hilt haeq
    refine ⟨hspec.1, ?_⟩
    intro hbit
    have hok := hspec.2 hbit
    have hnotin : addr_of p i ∉ p.free_list := (hp.bit_iff i hilt).mp hbit
    have hlen : p.free_list.length < p.total_blocks :=
      free_list_length_lt p hp hilt hnotin
    have hfblt : p.free_blocks < p.total_blocks := by
      rw [hp.fb_len]; exact hlen
    have hfbq : (free_commit p a (i / 8) (p.bitmap.getD (i / 8) 0)
        (1 <<< (i % 8))).free_blocks = p.free_blocks + 1 := by
      show (if p.free_blocks < p.total_blocks then p.free_blocks + 1
            else p.free_blocks) = _
      rw [if_pos hfblt]
    refine ⟨by rw [hok], by rw [hok], rfl, hfbq, by omega, rfl, ?_, ?_⟩
    · show u32_sub p.total_blocks (free_commit p a (i / 8)
        (p.bitmap.getD (i / 8) 0) (1 <<< (i % 8))).free_blocks = _
      rw [hfbq]
      exact u32_sub_eq (by omega) hp.total_lt
    · rw [free_commit_bits p hp a hilt i, if_pos rfl]
  · intro hfc0 hbs0 node rest hfl
    have hfb : p.free_blocks ≠ 0 := by rw [hp.fb_len, hfl]; simp
    have halloc := alloc_eq_success p hp.init_flag hfl hfb
    obtain ⟨i, hi, hnode⟩ := hp.fl_mem node (by rw [hfl]; exact List.mem_cons_self _ _)
    have hq1 := alloc_commit_inv p hp hfl hi hnode
    have hn0 : node ≠ 0 := by
      rw [hnode]; unfold addr_of; omega
    have hi1 : i < (alloc_commit p node rest).total_blocks := hi
    have hnode1 : node = addr_of (alloc_commit p node rest) i := hnode
    have hbit1 : bit_get (alloc_commit p node rest).bitmap i = true := by
      rw [alloc_commit_bits p hp rest hi hnode, if_pos rfl]
    have hfree1 := (free_spec (alloc_commit p node rest) hq1 hn0 hi1 hnode1).2 hbit1
    refine ⟨by rw [halloc], by rw [halloc], by rw [halloc], by rw [hfree1], ?_⟩
    refine ⟨_, by rw [hfree1], ?_, ?_⟩
    · show ((alloc_commit p node rest).stats.free_count + 1) % U32_MOD = 1
      have : (alloc_commit p node rest).stats.free_count = p.stats.free_count := rfl
      rw [this, hfc0]
      unfold U32_MOD
      norm_num
    · have hq2 := free_commit_inv (alloc_commit p node rest) hq1 hi1 hnode1 hbit1
      have hbit2 : bit_get (free_commit (alloc_commit p node rest) node (i / 8)
          ((alloc_commit p node rest).bitmap.getD (i / 8) 0)
          (1 <<< (i % 8))).bitmap i = false := by
        rw [free_commit_bits (alloc_commit p node rest) hq1 node hi1 i, if_pos rfl]
      have hfree2 := (free_spec _ hq2 hn0 hi1 hnode1).1 hbit2
      rw [hfree2]

theorem C5_free_paths_witness :
    ((∀ a, a ≠ 0 → pool7.blocks_start ≤ a →
      a < pool7.blocks_start + pool7.total_blocks * pool7.block_size →
      (a - pool7.blocks_start) % pool7.block_size = 0 →
      let i := (a - pool7.blocks_start) / pool7.block_size
      (bit_get pool7.bitmap i = false →
        mempool_free (some pool7) a = ⟨MEMPOOL_ERR_DOUBLE_FREE, some pool7,
          mempool_internal_lock (some pool7) ++ mempool_internal_unlock (some pool7)⟩) ∧
      (bit_get pool7.bitmap i = true →
        (mempool_free (some pool7) a).error = MEMPOOL_OK ∧
        (mempool_free (some pool7) a).pool = some (free_commit pool7 a (i / 8)
          (pool7.bitmap.getD (i / 8) 0) (1 <<< (i % 8))) ∧
        (free_commit pool7 a (i / 8) (pool7.bitmap.getD (i / 8) 0)
          (1 <<< (i % 8))).free_list = a :: pool7.free_list ∧
        (free_commit pool7 a (i / 8) (pool7.bitmap.getD (i / 8) 0)
          (1 <<< (i % 8))).free_blocks = pool7.free_blocks + 1 ∧
        (free_commit pool7 a (i / 8) (pool7.bitmap.getD (i / 8) 0)
          (1 <<< (i % 8))).free_blocks ≤ pool7.total_blocks ∧
        (free_commit pool7 a (i / 8) (pool7.bitmap.getD (i / 8) 0)
          (1 <<< (i % 8))).stats.free_count
          = (pool7.stats.free_count + 1) % U32_MOD ∧
        (free_commit pool7 a (i / 8) (pool7.bitmap.getD (i / 8) 0)
          (1 <<< (i % 8))).stats.used_blocks
          = pool7.total_blocks - (pool7.free_blocks + 1) ∧
        bit_get (free_commit pool7 a (i / 8) (pool7.bitmap.getD (i / 8) 0)
          (1 <<< (i % 8))).bitmap i = false)) ∧
    (pool7.stats.free_count = 0 → 0 < pool7.blocks_start →
      ∀ node rest, pool7.free_list = node :: rest →
      (mempool_alloc (some pool7) false).error = MEMPOOL_OK ∧
      (mempool_alloc (some pool7) false).block_out = some node ∧
      (mempool_alloc (some pool7) false).pool = some (alloc_commit pool7 node rest) ∧
      (mempool_free (some (alloc_commit pool7 node rest)) node).error = MEMPOOL_OK ∧
      (∃ q2, (mempool_free (some (alloc_commit pool7 node rest)) node).pool = some q2 ∧
        q2.stats.free_count = 1 ∧
        (mempool_free (some q2) node).error = MEMPOOL_ERR_DOUBLE_FREE))) :=
  C5_free_paths pool7 pool7_inv

/-- C9: in `mempool_free`, any pointer that passes the range and
block-boundary checks on an initialized pool has `byte_index < bitmap_bytes`,
so the INVALID_BLOCK branch inside the critical section is unreachable and
`mempool_free` never returns INVALID_BLOCK for such a pointer. -/
theorem C9_byte_index_lt_bitmap_bytes (p : Mempool) (hp : PoolInv p) {a : Nat}
    (h1 : p.blocks_start ≤ a)
    (h2 : a < p.blocks_start + p.total_blocks * p.block_size)
    (h3 : (a - p.blocks_start) % p.block_size = 0) :
    mempool_block_index p a / 8 < p.bitmap_bytes ∧
    (mempool_free (some p) a).error ≠ MEMPOOL_ERR_INVALID_BLOCK := by
  obtain ⟨hidx, hilt, haeq⟩ := free_index_eq p hp h1 h2 h3
  constructor
  · rw [hidx, hp.bb_eq]
    omega
  · by_cases h0 : a = 0
    · simp [mempool_free, h0]
    · have hspec := free_spec p hp h0 hilt haeq
      cases hbit : bit_get p.bitmap ((a - p.blocks_start) / p.block_size) with
      | false => rw [hspec.1 hbit]; simp
      | true => rw [hspec.2 hbit]; simp

theorem C9_byte_index_lt_bitmap_bytes_witness :
    mempool_block_index pool7 2 / 8 < pool7.bitmap_bytes ∧
    (mempool_free (some pool7) 2).error ≠ MEMPOOL_ERR_INVALID_BLOCK :=
  @C9_byte_index_lt_bitmap_bytes pool7 pool7_inv 2 (by decide) (by decide) (by decide)

/-- C4: on an initialized pool, alloc with an empty free list or
`free_blocks = 0` returns OUT_OF_MEMORY leaving the pool state (free list,
bitmap, statistics) unchanged; and starting from a full pool, `total_blocks`
allocations return every block, after which the next alloc returns
OUT_OF_MEMORY with every block's bitmap bit still set. -/
theorem C4_exhaustion_out_of_memory (p : Mempool) (hp : PoolInv p) :
    ((p.free_list = [] ∨ p.free_blocks = 0) →
      mempool_alloc (some p) false = ⟨MEMPOOL_ERR_OUT_OF_MEMORY, some p, none,
        mempool_internal_lock (some p) ++ mempool_internal_unlock (some p)⟩) ∧
    (p.free_blocks = p.total_blocks →
      (alloc_run p p.total_blocks).2.length = p.total_blocks ∧
      (∀ x ∈ (alloc_run p p.total_blocks).2,
        ∃ j, j < p.total_blocks ∧ x = addr_of p j) ∧
      (∀ j, j < p.total_blocks →
        bit_get (alloc_run p p.total_blocks).1.bitmap j = true) ∧
      mempool_alloc (some (alloc_run p p.total_blocks).1) false
        = ⟨MEMPOOL_ERR_OUT_OF_MEMORY, some (alloc_run p p.total_blocks).1, none,
            mempool_internal_lock (some (alloc_run p p.total_blocks).1) ++
              mempool_internal_unlock (some (alloc_run p p.total_blocks).1)⟩) := by
  have hinit := hp.init_flag
  constructor
  · intro hcase
    rcases hcase with hfl | hfb
    · simp [mempool_alloc, hinit, hfl]
    · cases hfl : p.free_list with
      | nil => simp [mempool_alloc, hinit, hfl]
      | cons node rest => simp [mempool_alloc, hinit, hfl, hfb]
  · intro hfb
    have hk : p.total_blocks = p.free_list.length := by
      rw [← hp.fb_len, hfb]
    obtain ⟨ho, hinv, hempt, hbs', hsz', htt', hfbf⟩ :=
      alloc_run_spec p.total_blocks p hp hk
    refine ⟨by rw [ho, ← hk], ?_, ?_, ?_⟩
    · rw [ho]; exact hp.fl_mem
    · intro j hj
      have hiff := hinv.bit_iff j (by rw [htt']; exact hj)
      rw [hempt] at hiff
      exact hiff.mpr (by simp)
    · simp [mempool_alloc, hinv.init_flag, hempt]

theorem C4_exhaustion_out_of_memory_witness :
    ((pool7.free_list = [] ∨ pool7.free_blocks = 0) →
      mempool_alloc (some pool7) false
        = ⟨MEMPOOL_ERR_OUT_OF_MEMORY, some pool7, none,
            mempool_internal_lock (some pool7) ++ mempool_internal_unlock (some pool7)⟩) ∧
    (pool7.free_blocks = pool7.total_blocks →
      (alloc_run pool7 pool7.total_blocks).2.length = pool7.total_blocks ∧
      (∀ x ∈ (alloc_run pool7 pool7.total_blocks).2,
        ∃ j, j < pool7.total_blocks ∧ x = addr_of pool7 j) ∧
      (∀ j, j < pool7.total_blocks →
        bit_get (alloc_run pool7 pool7.total_blocks).1.bitmap j = true) ∧
      mempool_alloc (some (alloc_run pool7 pool7.total_blocks).1) false
        = ⟨MEMPOOL_ERR_OUT_OF_MEMORY, some (alloc_run pool7 pool7.total_blocks).1,
            none,
            mempool_internal_lock (some (alloc_run pool7 pool7.total_blocks).1) ++
              mempool_internal_unlock
                (some (alloc_run pool7 pool7.total_blocks).1)⟩) :=
  C4_exhaustion_out_of_memory pool7 pool7_inv

/-- C7: after a successful init on a pool with N blocks, the free-list head
points at block N-1, and the first N allocations return the blocks in
strictly descending index order (block N-1 first, block 0 last). -/
theorem C7_lifo_descending {szm szfn sb ssz pb pbs bs al : Nat} {p : Mempool}
    (h : mempool_init szm szfn sb ssz pb pbs bs al false = .ok p) :
    p.free_list.head? = some (addr_of p (p.total_blocks - 1)) ∧
    (alloc_run p p.total_blocks).2
      = (List.range p.total_blocks).reverse.map (fun i => addr_of p i) := by
  have hp := init_ok_inv h
  obtain ⟨hfl, hfb, _, _, _⟩ := init_ok_shape h
  constructor
  · rw [hfl]
    obtain ⟨m, hm⟩ : ∃ m, p.total_blocks = m + 1 :=
      ⟨p.total_blocks - 1, by have := hp.total_pos; omega⟩
    rw [hm]
    show (build_free_list p.blocks_start p.block_size (m + 1)).head? = _
    rw [build_free_list]
    simp [addr_of]
  · have hk : p.total_blocks = p.free_list.length := by rw [← hp.fb_len, hfb]
    obtain ⟨ho, _, _, _, _, _, _⟩ := alloc_run_spec p.total_blocks p hp hk
    rw [ho, hfl, build_free_list_eq_map]
    rfl

theorem C7_lifo_descending_witness :
    pool7.free_list.head? = some (addr_of pool7 (pool7.total_blocks - 1)) ∧
    (alloc_run pool7 pool7.total_blocks).2
      = (List.range pool7.total_blocks).reverse.map (fun i => addr_of pool7 i) :=
  C7_lifo_descending (show mempool_init 1 8 1 1 1 64 8 1 false = .ok pool7 from rfl)

theorem exists_pow_of_is_power_of_two {al : Nat} (h : is_power_of_two al = true) :
    ∃ k, al = 2 ^ k := by
  unfold is_power_of_two at h
  simp only [Bool.and_eq_true, decide_eq_true_eq, beq_iff_eq] at h
  obtain ⟨hpos, hand⟩ := h
  refine ⟨al.log2, ?_⟩
  by_contra hne
  have hlo : 2 ^ al.log2 ≤ al := Nat.log2_self_le (by omega)
  have hhi : al < 2 ^ (al.log2 + 1) := Nat.lt_log2_self
  have hp2 : 2 ^ (al.log2 + 1) = 2 ^ al.log2 * 2 := Nat.pow_succ 2 al.log2
  have hgt : 2 ^ al.log2 < al := lt_of_le_of_ne hlo (fun he => hne he.symm)
  have hbit1 : al.testBit al.log2 = true := by
    rw [Nat.testBit_to_div_mod]
    have hdiv : al / 2 ^ al.log2 = 1 :=
      Nat.div_eq_of_lt_le (by omega) (by omega)
    simp [hdiv]
  have hbit2 : (al - 1).testBit al.log2 = true := by
    rw [Nat.testBit_to_div_mod]
    have hdiv : (al - 1) / 2 ^ al.log2 = 1 :=
      Nat.div_eq_of_lt_le (by omega) (by omega)
    simp [hdiv]
  have hbit : (al &&& (al - 1)).testBit al.log2 = true := by
    rw [Nat.testBit_and, hbit1, hbit2]
    rfl
  rw [hand] at hbit
  simp at hbit

theorem align_up_eq_spec {al : Nat} (k : Nat) (hal : al = 2 ^ k) (v : Nat) :
    align_up v al = spec_aligned_block_size v al := by
  have hpos : 0 < al := by rw [hal]; exact Nat.pos_pow_of_pos k (by norm_num)
  have h0 : align_up v al = (v + (al - 1)) - ((v + (al - 1)) &&& (al - 1)) := rfl
  have hmask : (v + (al - 1)) &&& (al - 1) = (v + (al - 1)) % al := by
    rw [hal]
    exact Nat.and_pow_two_sub_one_eq_mod _ k
  have hx : v + (al - 1) = v + al - 1 := by omega
  rw [h0, hmask, hx]
  unfold spec_aligned_block_size
  have hdm := Nat.div_add_mod (v + al - 1) al
  conv_rhs => rw [Nat.mul_comm]
  omega

theorem code_pad_eq_spec {al : Nat} (k : Nat) (hal : al = 2 ^ k) (b : Nat) :
    code_pad al b = spec_pad b al := by
  have hpos : 0 < al := by rw [hal]; exact Nat.pos_pow_of_pos k (by norm_num)
  have hmask : b &&& (al - 1) = b % al := by
    rw [hal]
    exact Nat.and_pow_two_sub_one_eq_mod b k
  unfold spec_pad
  by_cases h1 : 1 < al
  · have hcp : code_pad al b = if b % al ≠ 0 then al - b % al else 0 := by
      unfold code_pad
      rw [if_pos h1]
      simp only [hmask]
    rw [hcp]
    by_cases h2 : b % al = 0
    · rw [if_neg (fun hc => hc h2), h2, Nat.sub_zero, Nat.mod_self]
    · rw [if_pos h2]
      have hrlt : b % al < al := Nat.mod_lt _ hpos
      exact (Nat.mod_eq_of_lt (by omega)).symm
  · have hone : al = 1 := by omega
    subst hone
    unfold code_pad
    simp [Nat.mod_one]

theorem spec_fits_iff_code {pbs bs al : Nat} (k : Nat) (hal : al = 2 ^ k) (n : Nat) :
    spec_fits pbs bs al n ↔ code_required (align_up bs al) al n ≤ pbs := by
  have h1 : code_required (align_up bs al) al n
      = (n + 7) / 8 + code_pad al ((n + 7) / 8) + n * align_up bs al := rfl
  unfold spec_fits
  rw [h1, align_up_eq_spec k hal, code_pad_eq_spec k hal]

theorem layout_search_none {pbs abs al : Nat} : ∀ {fuel : Nat},
    layout_search pbs abs al fuel = none →
    ∀ m, 1 ≤ m → m ≤ fuel → ¬ (code_required abs al m ≤ pbs) := by
  intro fuel
  induction fuel with
  | zero => intro _ m h1 h2; omega
  | succ j ih =>
    intro h m h1 h2
    rw [layout_search] at h
    by_cases hc : ((j + 1) + 7) / 8 + code_pad al (((j + 1) + 7) / 8)
        + (j + 1) * abs ≤ pbs
    · rw [if_pos hc] at h; exact absurd h (by simp)
    · rw [if_neg hc] at h
      rcases Nat.lt_succ_iff_lt_or_eq.mp (Nat.lt_succ_of_le h2) with hm | rfl
      · exact ih h m h1 (by omega)
      · exact hc

theorem layout_search_maximal {pbs abs al : Nat} : ∀ {fuel n bb off : Nat},
    layout_search pbs abs al fuel = some (n, bb, off) →
    ∀ m, n < m → m ≤ fuel → ¬ (code_required abs al m ≤ pbs) := by
  intro fuel
  induction fuel with
  | zero => intro n bb off h; simp [layout_search] at h
  | succ j ih =>
    intro n bb off h m hm h2
    rw [layout_search] at h
    by_cases hc : ((j + 1) + 7) / 8 + code_pad al (((j + 1) + 7) / 8)
        + (j + 1) * abs ≤ pbs
    · rw [if_pos hc] at h
      obtain ⟨rfl, -, -⟩ := by simpa using h
      omega
    · rw [if_neg hc] at h
      rcases Nat.lt_succ_iff_lt_or_eq.mp (Nat.lt_succ_of_le h2) with h2' | rfl
      · exact ih h m hm (by omega)
      · exact hc

/-- C3 (amended): for every valid input (power-of-two non-zero alignment,
aligned pool region, `block_size ≥` link size, non-null buffers, sufficient
state buffer), if no `N ≥ 1` satisfies
`⌈N/8⌉ + pad + N × aligned_block_size ≤ pool_region_size` then init returns
the invalid-size error; and when a largest such `N` exists, init succeeds with
block count `N` provided `N ≤ UINT32_MAX`, and returns the invalid-size error
when `N > UINT32_MAX`. -/
theorem C3_layout_planner (szm szfn sb ssz pb pbs bs al : Nat)
    (hsb : sb ≠ 0) (hpb : pb ≠ 0) (hssz : szm ≤ ssz) (hpbs : pbs ≠ 0)
    (hbs : bs ≠ 0) (hpow : is_power_of_two al = true)
    (halign : pb &&& (al - 1) = 0) (hlink : szfn ≤ bs) :
    ((∀ n, 1 ≤ n → ¬ spec_fits pbs bs al n) →
      mempool_init szm szfn sb ssz pb pbs bs al false
        = .error MEMPOOL_ERR_INVALID_SIZE) ∧
    (∀ g, 1 ≤ g → spec_fits pbs bs al g →
      (∀ m, 1 ≤ m → spec_fits pbs bs al m → m ≤ g) →
      (g ≤ UINT32_MAX →
        ∃ p, mempool_init szm szfn sb ssz pb pbs bs al false = .ok p ∧
          p.total_blocks = g) ∧
      (UINT32_MAX < g →
        mempool_init szm szfn sb ssz pb pbs bs al false
          = .error MEMPOOL_ERR_INVALID_SIZE)) := by
  obtain ⟨k, hal⟩ := exists_pow_of_is_power_of_two hpow
  have habs_pos : 0 < align_up bs al :=
    lt_of_lt_of_le (by omega) (le_align_up bs al)
  have hfits : ∀ n, spec_fits pbs bs al n ↔
      code_required (align_up bs al) al n ≤ pbs := fun n => spec_fits_iff_code k hal n
  constructor
  · intro hnone
    by_cases hmax : pbs / align_up bs al = 0
    · simp [mempool_init, hsb, hpb, Nat.not_lt.mpr hssz, hpbs, hbs, hpow, halign,
        Nat.not_lt.mpr hlink, hmax]
    · cases hsearch : layout_search pbs (align_up bs al) al (pbs / align_up bs al) with
      | none =>
        simp [mempool_init, hsb, hpb, Nat.not_lt.mpr hssz, hpbs, hbs, hpow, halign,
          Nat.not_lt.mpr hlink, hmax, hsearch]
      | some t =>
        obtain ⟨n, bb, off⟩ := t
        obtain ⟨hn1, hnle, rfl, rfl, hfit⟩ := layout_search_some hsearch
        exact absurd ((hfits n).mpr hfit) (hnone n hn1)
  · intro g hg1 hgfit hgmax
    have hgcode := (hfits g).mp hgfit
    have hgabs : g * align_up bs al ≤ pbs := by
      have hle : g * align_up bs al ≤ code_required (align_up bs al) al g := by
        have h1 : code_required (align_up bs al) al g
            = (g + 7) / 8 + code_pad al ((g + 7) / 8) + g * align_up bs al := rfl
        omega
      omega
    have hgle : g ≤ pbs / align_up bs al :=
      (Nat.le_div_iff_mul_le habs_pos).mpr hgabs
    have hmax : ¬ (pbs / align_up bs al = 0) := by omega
    cases hsearch : layout_search pbs (align_up bs al) al (pbs / align_up bs al) with
    | none => exact absurd hgcode (layout_search_none hsearch g hg1 hgle)
    | some t =>
      obtain ⟨n, bb, off⟩ := t
      obtain ⟨hn1, hnle, rfl, rfl, hfit⟩ := layout_search_some hsearch
      have hng : n = g := by
        refine le_antisymm (hgmax n hn1 ((hfits n).mpr hfit)) ?_
        by_contra hlt
        exact layout_search_maximal hsearch g (by omega) hgle hgcode
      subst hng
      constructor
      · intro hgsmall
        have hcond : ¬ (UINT32_MAX < n ∨ UINT32_MAX < (n + 7) / 8) := by
          unfold UINT32_MAX at *
          omega
        have heval : mempool_init szm szfn sb ssz pb pbs bs al false = .ok
            { pool_buffer_start := pb
              blocks_start := pb + ((n + 7) / 8 + code_pad al ((n + 7) / 8))
              free_list := build_free_list
                (pb + ((n + 7) / 8 + code_pad al ((n + 7) / 8))) (align_up bs al) n
              bitmap := List.replicate ((n + 7) / 8) 0
              bitmap_bytes := (n + 7) / 8
              block_size := align_up bs al
              total_blocks := n
              free_blocks := n
              alignment := al
              stats := ⟨n, 0, n, 0, 0, 0, align_up bs al⟩
              sync := ⟨none, none, 0⟩
              sync_enabled := false
              initialized := true } := by
          simp [mempool_init, hsb, hpb, Nat.not_lt.mpr hssz, hpbs, hbs, hpow,
            halign, Nat.not_lt.mpr hlink, hmax, hsearch, hcond]
        exact ⟨_, heval, rfl⟩
      · intro hgbig
        have hcond : UINT32_MAX < n ∨ UINT32_MAX < (n + 7) / 8 := Or.inl hgbig
        simp [mempool_init, hsb, hpb, Nat.not_lt.mpr hssz, hpbs, hbs, hpow,
          halign, Nat.not_lt.mpr hlink, hmax, hsearch, hcond]

/-- C3 counterexample: a valid input (alignment 1 is a power of two, pool
region at address 1 trivially aligned, block_size 4294967296 ≥ link size 8)
for which the largest `N ≥ 1` satisfying the layout constraint is
4294967297 > UINT32_MAX, yet `mempool_init` returns the invalid-size error
instead of succeeding with that block count — refuting the claim as stated. -/
theorem C3_layout_planner_counterexample :
    is_power_of_two 1 = true ∧
    (1 : Nat) &&& (1 - 1) = 0 ∧
    (8 : Nat) ≤ 4294967296 ∧
    spec_fits 18446744078541389825 4294967296 1 4294967297 ∧
    (∀ m, spec_fits 18446744078541389825 4294967296 1 m → m ≤ 4294967297) ∧
    mempool_init 1 8 1 1 1 18446744078541389825 4294967296 1 false
      = .error MEMPOOL_ERR_INVALID_SIZE ∧
    ∀ p, mempool_init 1 8 1 1 1 18446744078541389825 4294967296 1 false
      ≠ .ok p := by
  refine ⟨by decide, by decide, by decide,
    by unfold spec_fits spec_aligned_block_size spec_pad; decide, ?_, by rfl, ?_⟩
  · intro m hm
    unfold spec_fits spec_aligned_block_size spec_pad at hm
    omega
  · intro p h
    rw [show mempool_init 1 8 1 1 1 18446744078541389825 4294967296 1 false
        = .error MEMPOOL_ERR_INVALID_SIZE from rfl] at h
    exact absurd h (by simp)

theorem C3_layout_planner_witness :
    ((∀ n, 1 ≤ n → ¬ spec_fits 64 8 1 n) →
      mempool_init 1 8 1 1 1 64 8 1 false = .error MEMPOOL_ERR_INVALID_SIZE) ∧
    (∀ g, 1 ≤ g → spec_fits 64 8 1 g →
      (∀ m, 1 ≤ m → spec_fits 64 8 1 m → m ≤ g) →
      (g ≤ UINT32_MAX →
        ∃ p, mempool_init 1 8 1 1 1 64 8 1 false = .ok p ∧ p.total_blocks = g) ∧
      (UINT32_MAX < g →
        mempool_init 1 8 1 1 1 64 8 1 false
          = .error MEMPOOL_ERR_INVALID_SIZE)) :=
  C3_layout_planner 1 8 1 1 1 64 8 1 (by decide) (by decide) (by decide)
    (by decide) (by decide) (by decide) (by decide) (by decide)
